import Mathlib

/-!
Verification development for the keeper-pdf-generator repository.

The embedding covers the two scripts:
  * `keeper_pdf_generator.py` — template substitution, per-customer vault
    provisioning with rollback, temp-file handling, publication, batch loop;
  * `keeper_pdf_system.py` — field-value cleaning, vault-data extraction,
    template-context construction, per-customer processing and the batch menu.

External collaborators (vault SDK calls, Word/COM conversion, the file
system) are modeled by oracle records whose fields decide the outcome of
each external call; every vault-visible action is recorded as an event so
that rollback/cleanup behavior is observable.  Machine text is modeled as
`String`/`List Char`; Python dictionaries as insertion-ordered association
lists with overwrite-on-repeat semantics.
-/

/-! ## Basic text utilities -/

/-- Test whether `tok` is a prefix of the second list (textual match at the
current position, as a regex literal or `str.startswith` would do). -/
def tokAt : List Char → List Char → Bool
  | [], _ => true
  | _ :: _, [] => false
  | t :: ts, c :: cs => t = c && tokAt ts cs

/-- Test whether `tok` occurs anywhere in the text (Python `tok in s`). -/
def occursB (tok : List Char) : List Char → Bool
  | [] => tok.isEmpty
  | c :: rest => tokAt tok (c :: rest) || occursB tok rest

/-- Replace every occurrence of `tok` (leftmost, non-overlapping, the
replacement text is not rescanned) by `rep`, with explicit fuel so that the
function is structurally recursive.  This is the semantics shared by
`re.sub` with a literal pattern and by Python `str.replace`. -/
def replaceFuel (tok rep : List Char) : Nat → List Char → List Char
  | 0, s => s
  | _ + 1, [] => []
  | n + 1, c :: rest =>
    match tok with
    | [] => c :: rest
    | t :: ts =>
      if t = c && tokAt ts rest then rep ++ replaceFuel tok rep n (rest.drop ts.length)
      else c :: replaceFuel tok rep n rest

/-- Replace every occurrence of `tok` by `rep` in `s`. -/
def replaceL (tok rep s : List Char) : List Char := replaceFuel tok rep s.length s

/-- String-level wrapper for `replaceL` (Python `s.replace(tok, rep)` or
`re.sub(re.escape(tok), rep, s)` for literal `tok`). -/
def replaceS (s tok rep : String) : String := ⟨replaceL tok.data rep.data s.data⟩

/-- Python `sub in s` on strings. -/
def strContainsSub (sub s : String) : Bool := occursB sub.data s.data

/-- Python `s.startswith(pre)`. -/
def strStarts (s pre : String) : Bool := tokAt pre.data s.data

/-- Python `s.endswith(suf)`. -/
def strEnds (s suf : String) : Bool := tokAt suf.data.reverse s.data.reverse

/-- Whitespace characters stripped by Python `str.strip()`. -/
def pyWS : List Char := [' ', '\t', '\n', '\r', '\x0b', '\x0c']

/-- Python `s.strip()`. -/
def pyStrip (s : String) : String :=
  ⟨((s.data.dropWhile (pyWS.contains ·)).reverse.dropWhile (pyWS.contains ·)).reverse⟩

/-- Python `s.lower()` (ASCII case mapping suffices for the field names the
scripts compare against). -/
def pyLower (s : String) : String := ⟨s.data.map Char.toLower⟩

/-- Lexicographic comparison of character lists by code point; this is how
Python compares strings with `<=` and orders them in `sorted`. -/
def lexLe : List Char → List Char → Bool
  | [], _ => true
  | _ :: _, [] => false
  | a :: as, b :: bs => if a = b then lexLe as bs else decide (a.toNat < b.toNat)

/-! ## Python dictionaries as insertion-ordered association lists -/

/-- Python `d[k] = v`: overwrite in place if the key is present, else append
(insertion order is preserved, as for `dict`). -/
def dinsert (k : String) (v : α) : List (String × α) → List (String × α)
  | [] => [(k, v)]
  | (k2, v2) :: rest => if k2 = k then (k, v) :: rest else (k2, v2) :: dinsert k v rest

/-- Python `d.get(k)` / `d[k]` lookup. -/
def dget (k : String) : List (String × α) → Option α
  | [] => none
  | (k2, v2) :: rest => if k2 = k then some v2 else dget k rest

/-- Python `list(d.values())` in insertion order. -/
def dvalues (d : List (String × α)) : List α := d.map Prod.snd

/-! ## Python values and `KeeperPDFGenerator._clean_field_value`
(`keeper_pdf_system.py`, lines 158-164) -/

/-- The Python values that can reach `_clean_field_value`: strings, ints,
booleans, `None` and (possibly nested) lists. -/
inductive PyValue where
  | str (s : String)
  | int (n : Int)
  | bool (b : Bool)
  | none
  | list (l : List PyValue)

mutual
/-- Python `repr` (string escaping inside `repr` of a string is not modeled;
the inputs used in this development contain no quotes or backslashes). -/
def pyRepr : PyValue → String
  | .str s => "\x27" ++ s ++ "\x27"
  | .int n => toString n
  | .bool b => if b then "True" else "False"
  | .none => "None"
  | .list l => "[" ++ pyReprList l ++ "]"
/-- Comma-separated `repr` of list elements, as Python renders list bodies. -/
def pyReprList : List PyValue → String
  | [] => ""
  | [v] => pyRepr v
  | v :: w :: rest => pyRepr v ++ ", " ++ pyReprList (w :: rest)
end

/-- Python `str(v)`: identity on strings, `repr`-rendering otherwise. -/
def pyStr : PyValue → String
  | .str s => s
  | v => pyRepr v

/-- Python truthiness of a value. -/
def pyTruthy : PyValue → Bool
  | .str s => !s.data.isEmpty
  | .int n => decide (n ≠ 0)
  | .bool b => b
  | .none => false
  | .list l => !l.isEmpty

/-- The string `"['"` (written with escaped quote). -/
def lbq : String := "[\x27"

/-- The string `"']"` (written with escaped quote). -/
def rbq : String := "\x27]"

/-- Python slice `s[2:-2]` (empty when the string has fewer than 5
characters, by Python slice clamping). -/
def pySlice2m2 (s : String) : String := ⟨(s.data.drop 2).take (s.data.length - 4)⟩

/-- `KeeperPDFGenerator._clean_field_value` (`keeper_pdf_system.py` 158-164):
strip the `"['...']"` wrapper from vault-exported strings, take the first
element of a non-empty list, map falsy values to `''`, stringify the rest. -/
def clean_field_value : PyValue → String
  | .str s =>
    if strStarts s lbq && strEnds s rbq then pySlice2m2 s
    else if pyTruthy (.str s) then s else ""
  | .list (h :: _) => pyStr h
  | v => if pyTruthy v then pyStr v else ""

/-- Field values arriving from `_extract_record_fields` are already
stringified (`str(field_value)`), so `extract_vault_data` cleans strings. -/
def cleanStr (s : String) : String := clean_field_value (.str s)

/-! ## keeper_pdf_system.py: vault-data extraction and template context -/

/-- One extracted email mailbox entry (`email_data` dict); a missing
`password` key is represented by `""`, matching every read site, which uses
`.get('password', '')`. -/
structure EmailEntry where
  email : String
  password : String
deriving DecidableEq

/-- The `vault_data` dictionary assembled by `extract_vault_data`
(`keeper_pdf_system.py` 166-223). -/
structure VaultData where
  emails : List EmailEntry
  webmail_url : String
  website_login : String
  website_password : String
  website_url : String
  statistics_login : String
  statistics_password : String
  statistics_url : String
  smtp_server : String
deriving DecidableEq

/-- The initial `vault_data` dictionary (lines 168-178). -/
def initVaultData : VaultData := ⟨[], "", "", "", "", "", "", "", ""⟩

/-- A record as returned by `extract_customer_data`: its `type` string and
its stringified `fields` dict. -/
structure SysRecord where
  rtype : String
  fields : List (String × String)
deriving DecidableEq

/-- The `E-Mail-Postfach` branch (lines 185-195): fold the fields into an
`email_data` dict holding optional `email` and `password` entries. -/
def emailFold (fields : List (String × String)) : Option String × Option String :=
  fields.foldl (fun acc fv =>
    let cv := cleanStr fv.2
    if strContainsSub "email" (pyLower fv.1) && cv ≠ "" then (some cv, acc.2)
    else if strContainsSub "password" (pyLower fv.1) && cv ≠ "" then (acc.1, some cv)
    else acc) (Option.none, Option.none)

/-- The `Website-Login` branch (lines 197-205). -/
def websiteFold (vd : VaultData) (fields : List (String × String)) : VaultData :=
  fields.foldl (fun vd fv =>
    let cv := cleanStr fv.2
    if strContainsSub "login" (pyLower fv.1) then { vd with website_login := cv }
    else if strContainsSub "password" (pyLower fv.1) then { vd with website_password := cv }
    else if strContainsSub "url" (pyLower fv.1) then { vd with website_url := cv }
    else vd) vd

/-- The `Web-Statistik-Login` branch (lines 207-215). -/
def statisticsFold (vd : VaultData) (fields : List (String × String)) : VaultData :=
  fields.foldl (fun vd fv =>
    let cv := cleanStr fv.2
    if strContainsSub "login" (pyLower fv.1) then { vd with statistics_login := cv }
    else if strContainsSub "password" (pyLower fv.1) then { vd with statistics_password := cv }
    else if strContainsSub "url" (pyLower fv.1) then { vd with statistics_url := cv }
    else vd) vd

/-- The `Webmail-URL` branch (lines 217-221). -/
def webmailFold (vd : VaultData) (fields : List (String × String)) : VaultData :=
  fields.foldl (fun vd fv =>
    let cv := cleanStr fv.2
    if strContainsSub "url" (pyLower fv.1) then { vd with webmail_url := cv }
    else vd) vd

/-- `KeeperPDFGenerator.extract_vault_data` (`keeper_pdf_system.py` 166-223):
dispatch on substrings of the record type, exactly in the source order of
the `if`/`elif` chain.  Note that no branch ever assigns `smtp_server`. -/
def extract_vault_data (records : List SysRecord) : VaultData :=
  records.foldl (fun vd r =>
    if strContainsSub "E-Mail-Postfach" r.rtype then
      match emailFold r.fields with
      | (some em, pw) => { vd with emails := vd.emails ++ [⟨em, pw.getD ""⟩] }
      | (Option.none, _) => vd
    else if strContainsSub "Website-Login" r.rtype then websiteFold vd r.fields
    else if strContainsSub "Web-Statistik-Login" r.rtype then statisticsFold vd r.fields
    else if strContainsSub "Webmail-URL" r.rtype then webmailFold vd r.fields
    else vd) initVaultData

/-- The template-rendering context returned by `build_template_context`
(`keeper_pdf_system.py` 244-265). -/
structure TemplateContext where
  customer_name : String
  current_date : String
  support_email : String
  primary_email : String
  primary_email_password : String
  secondary_email : String
  secondary_email_password : String
  webmail_url : String
  website_login : String
  website_password : String
  website_url : String
  statistics_login : String
  statistics_password : String
  statistics_url : String
  smtp_server : String
  imap_server : String
  pop_server : String
  imap_port : String
  pop_port : String
  smtp_port : String
deriving DecidableEq

/-- Line 227: `customer_name.split('(')[0].strip().replace('.local', '')`. -/
def customerDomain (name : String) : String :=
  replaceS (pyStrip ⟨name.data.takeWhile (· ≠ '(')⟩) ".local" ""

/-- Sort key of line 236: `lambda x: x.get('email', '')`, compared as Python
compares strings. -/
def emailKeyLe (a b : EmailEntry) : Bool := lexLe a.email.data b.email.data

/-- Stable insertion of one entry into an already sorted list: the new entry
goes in front of the first entry it compares less-or-equal to. -/
def insertE (x : EmailEntry) : List EmailEntry → List EmailEntry
  | [] => [x]
  | y :: ys => if emailKeyLe x y then x :: y :: ys else y :: insertE x ys

/-- Python `sorted(entries, key=lambda x: x.get('email', ''))`: a stable
sort by email address.  `sortE (x :: xs)` inserts the earlier element `x`
into the sorted later elements, in front of entries with an equal key, which
is exactly the stability guarantee of `sorted`. -/
def sortE : List EmailEntry → List EmailEntry
  | [] => []
  | x :: xs => insertE x (sortE xs)

/-- Python `a or b` on strings: `b` exactly when `a` is falsy (empty). -/
def pyOrS (a b : String) : String := if a = "" then b else a

/-- `KeeperPDFGenerator.build_template_context`
(`keeper_pdf_system.py` 225-265). -/
def build_template_context (customer_name : String) (vault_data : VaultData) : TemplateContext :=
  let customer_domain := customerDomain customer_name
  let es := sortE vault_data.emails
  { customer_name := customer_domain
    current_date := "2025"
    support_email := "support@kunze-medien.de"
    primary_email := ((es.head?).map EmailEntry.email).getD ""
    primary_email_password := ((es.head?).map EmailEntry.password).getD ""
    secondary_email := (((es.drop 1).head?).map EmailEntry.email).getD ""
    secondary_email_password := (((es.drop 1).head?).map EmailEntry.password).getD ""
    webmail_url := vault_data.webmail_url
    website_login := vault_data.website_login
    website_password := vault_data.website_password
    website_url := vault_data.website_url
    statistics_login := vault_data.statistics_login
    statistics_password := vault_data.statistics_password
    statistics_url := vault_data.statistics_url
    smtp_server := pyOrS vault_data.smtp_server ("smtp." ++ customer_domain ++ ".local")
    imap_server := "imap." ++ customer_domain ++ ".local"
    pop_server := "pop." ++ customer_domain ++ ".local"
    imap_port := "993"
    pop_port := "995"
    smtp_port := "465" }

/-! ## keeper_pdf_system.py: per-customer processing and the batch menu -/

/-- A customer row produced by `get_customer_folders`. -/
structure SysCustomer where
  name : String
  uid : String
  category : String
deriving DecidableEq

/-- The `template_paths` dict of `KeeperPDFGenerator.__init__` (lines 44-47). -/
def template_paths : List (String × String) :=
  [("extern", "temp_templates/ENHANCED_extern_template.docx"),
   ("intern", "temp_templates/ENHANCED_intern_template.docx")]

/-- Outcomes of the external calls made by `KeeperPDFGenerator`: whether a
template file exists on disk, which records the vault returns for a
subfolder, and whether the external render/convert pipeline of
`generate_pdf` succeeds (it catches every exception and returns `None` on
failure). -/
structure SysOracle where
  fileExists : String → Bool
  subfolderRecords : String → List SysRecord
  pdfOk : String → Bool

/-- Log events observable from `process_customer` / `run`
(`keeper_pdf_system.py`). -/
inductive SysEv where
  | processing (name : String)
  | errTemplate
  | warnNoRecords (name : String)
  | success (name : String)
  | failed (name : String)
  | summary (successes total : Nat)
deriving DecidableEq

/-- `KeeperPDFGenerator.process_customer` (`keeper_pdf_system.py` 298-326):
log, look up the category template, require at least one record, build the
context and hand off to `generate_pdf`; every failure returns `False`
without raising. -/
def process_customer_sys (o : SysOracle) (c : SysCustomer) : Bool × List SysEv :=
  let ev0 := SysEv.processing c.name
  match dget c.category template_paths with
  | Option.none => (false, [ev0, SysEv.errTemplate])
  | some p =>
    if o.fileExists p then
      match o.subfolderRecords c.uid with
      | [] => (false, [ev0, SysEv.warnNoRecords c.name])
      | recs =>
        let vd := extract_vault_data recs
        let _ctx := build_template_context c.name vd
        if o.pdfOk c.name then (true, [ev0, SysEv.success c.name])
        else (false, [ev0, SysEv.failed c.name])
    else (false, [ev0, SysEv.errTemplate])

/-- The `choice == 'A'` loop of `KeeperPDFGenerator.run`
(`keeper_pdf_system.py` 355-359): process every customer, counting
successes; a `False` from one customer never stops the loop. -/
def runAll (o : SysOracle) : List SysCustomer → Nat × List SysEv
  | [] => (0, [])
  | c :: rest =>
    let r := process_customer_sys o c
    let rr := runAll o rest
    ((if r.1 then 1 else 0) + rr.1, r.2 ++ rr.2)

/-- `run` after the loop prints the batch summary (line 361). -/
def runAllSummary (o : SysOracle) (cs : List SysCustomer) : Nat × List SysEv :=
  let r := runAll o cs
  (r.1, r.2 ++ [SysEv.summary r.1 cs.length])

/-! ## keeper_pdf_generator.py: template substitution -/

/-- One entry of the `records` array of the JSON structure template. -/
structure RecordSpec where
  title : String
  folder : String
  fields : List (String × String)
deriving DecidableEq

/-- The JSON structure template
(`{root_folder, subfolders, records}`). -/
structure JsonTemplate where
  root_folder : String
  subfolders : List String
  records : List RecordSpec
deriving DecidableEq

/-- The literal token `${customer_name}` that line 117 substitutes. -/
def tokCN : List Char := "$\x7bcustomer_name\x7d".data

/-- The tail of the token after its leading `$`. -/
def tsCN : List Char := "\x7bcustomer_name\x7d".data

/-- Apply the line-117 regex substitution to one string of the template. -/
def substStr (v : String) (s : String) : String := ⟨replaceL tokCN v.data s.data⟩

/-- Substitution applied across one record of the template. -/
def substRecord (v : String) (r : RecordSpec) : RecordSpec :=
  ⟨substStr v r.title, substStr v r.folder,
   r.fields.map (fun fv => (substStr v fv.1, substStr v fv.2))⟩

/-- Effect of `json.dumps` / `re.sub` / `json.loads` on the structured
template: the token is replaced in every serialized string, keys included.
(Values whose substitution would break the JSON encoding — quotes,
backslashes — are outside the model.) -/
def substTemplate (v : String) (t : JsonTemplate) : JsonTemplate :=
  ⟨substStr v t.root_folder, t.subfolders.map (substStr v),
   t.records.map (substRecord v)⟩

/-- Python exception classes reachable in the embedded code paths. -/
inductive PyErr where
  | keyError
  | nameError
  | valueError
  | apiError
  | comError
  | renderError
deriving DecidableEq

deriving instance DecidableEq for Except

/-- `substitute_placeholders` (`keeper_pdf_generator.py` 114-119): replace
`${customer_name}` by `customer['name']` throughout the serialized
template; the lookup `customer['name']` raises `KeyError` when the key is
absent. -/
def substitute_placeholders (template : JsonTemplate) (customer : List (String × String)) :
    Except PyErr JsonTemplate :=
  match dget "name" customer with
  | Option.none => Except.error PyErr.keyError
  | some v => Except.ok (substTemplate v template)

/-! ## keeper_pdf_generator.py: process_customer and its vault effects -/

/-- Vault- and filesystem-visible events of `process_customer`. -/
inductive Ev where
  | createFolder (name parent uid : String)
  | addRecord (title folderUid : String)
  | tmpFile (path : String)
  | removeFile (path : String)
  | setPermission (folderUid : String)
  | oneTimeShare (recordUid : String)
  | logError
  | deleteFolderCall (uid : String)
  | deleteRecordCall (uid : String)
  | logCompleted
deriving DecidableEq

/-- Outcomes of the external calls of `process_customer`: server-assigned
folder uids and success of each numbered folder/record creation, the module
global `word_uid` (which `main` never defines at module scope — reading it
raises `NameError` when absent), the download / render / COM-convert /
upload outcomes, temp-file paths handed out by `tempfile`, the uid of the
PDF record, success of each deletion, and the permission/share outcomes. -/
structure Oracle where
  folderUid : Nat → String
  folderOk : Nat → Bool
  recordOk : Nat → Bool
  wordUidGlobal : Option String
  wordDownloadOk : Bool
  renderOk : Bool
  tmpDocx : String
  tmpPdf : String
  convertOk : Bool
  pdfUid : String
  pdfAddOk : Bool
  uploadOk : Bool
  permissionOk : Bool
  shareOk : Bool
  deleteOk : String → Bool

/-- The subfolder-creation loop (lines 146-149): create each subfolder
under the root and record its uid in the `subfolder_uids` dict; a failed
creation raises immediately, so nothing later in the loop runs. -/
def createSubfolders (o : Oracle) (rootUid : String) (k : Nat) (acc : List (String × String)) :
    List String → Except PyErr (List (String × String)) × List Ev
  | [] => (.ok acc, [])
  | sub :: rest =>
    if o.folderOk k then
      let uid := o.folderUid k
      let r := createSubfolders o rootUid (k + 1) (dinsert sub uid acc) rest
      (r.1, Ev.createFolder sub rootUid uid :: r.2)
    else (.error .apiError, [])

/-- The record-creation loop (lines 150-157).  The created `RecordV3` gets
only its `title` — the loop never sets any field from `rec_data['fields']`
(the source carries the comment `# For fields, use record.set_field etc.`),
so the vault stores each record with an empty field mapping.  The record is
added to `subfolder_uids.get(folder, root_folder_uid)`. -/
def addRecords (o : Oracle) (rootUid : String) (subMap : List (String × String)) (j : Nat) :
    List RecordSpec → Except PyErr (List (String × List (String × String))) × List Ev
  | [] => (.ok [], [])
  | r :: rest =>
    let fUid := (dget r.folder subMap).getD rootUid
    if o.recordOk j then
      let rr := addRecords o rootUid subMap (j + 1) rest
      (match rr.1 with
       | .ok created => .ok ((r.title, ([] : List (String × String))) :: created)
       | .error e => .error e,
       Ev.addRecord r.title fUid :: rr.2)
    else (.error .apiError, [])

/-- Key synthesis of line 163: `f'{title}_{field}'`. -/
def mkKey (title field : String) : String := ⟨title.data ++ '_' :: field.data⟩

/-- `get_folder_records` (lines 134-140) restricted to the freshly created
root-folder tree: the records are keyed by title into a dict
(`records[rec.title] = rec.to_dict()`), so a repeated title overwrites the
earlier record; `to_dict` is modeled as the record's stored field mapping. -/
def get_folder_records_model (recs : List (String × List (String × String))) :
    List (String × List (String × String)) :=
  recs.foldl (fun m r => dinsert r.1 r.2 m) []

/-- The context aggregation of lines 159-163: seed with `customer_name`,
then insert `f'{title}_{field}' : value` for every field of every record. -/
def aggregateContext (name : String) (records : List (String × List (String × String))) :
    List (String × String) :=
  records.foldl
    (fun ctx r => r.2.foldl (fun ctx fv => dinsert (mkKey r.1 fv.1) fv.2 ctx) ctx)
    [("customer_name", name)]

/-- Result of the provisioning half of `process_customer`: the root uid,
the `subfolder_uids` dict, the created records, and the context map. -/
structure ProvisionOut where
  rootUid : String
  subMap : List (String × String)
  created : List (String × List (String × String))
  context : List (String × String)
deriving DecidableEq

/-- Lines 142-163 of `process_customer`: substitute the template, create the
root folder under the target, create the subfolders and records, and read
the created records back into the context map. -/
def provisionPhase (o : Oracle) (customer : List (String × String)) (tpl : JsonTemplate)
    (targetUid : String) : Except PyErr ProvisionOut × List Ev :=
  match substitute_placeholders tpl customer with
  | .error e => (.error e, [])
  | .ok t =>
    if o.folderOk 0 then
      let rootUid := o.folderUid 0
      let ev0 := Ev.createFolder t.root_folder targetUid rootUid
      match createSubfolders o rootUid 1 [] t.subfolders with
      | (.error e, evs) => (.error e, ev0 :: evs)
      | (.ok subMap, evs1) =>
        match addRecords o rootUid subMap 0 t.records with
        | (.error e, evs2) => (.error e, ev0 :: evs1 ++ evs2)
        | (.ok created, evs2) =>
          match dget "name" customer with
          | Option.none => (.error .keyError, ev0 :: evs1 ++ evs2)
          | some name =>
            let context := aggregateContext name (get_folder_records_model created)
            (.ok ⟨rootUid, subMap, created, context⟩, ev0 :: evs1 ++ evs2)
    else (.error .apiError, [])

/-- Lines 164-180: fetch the Word template (line 164 reads the name
`word_uid`, which is a local of `main`, not a module global — the lookup
raises `NameError` unless the name happens to be defined), render, save to
a temp DOCX, convert via Word COM to a temp PDF and read it back, then
`os.remove` both files.  The removals are straight-line statements, not a
`finally` block: they only run when conversion and the read succeed. -/
def renderConvertPhase (o : Oracle) : Except PyErr Unit × List Ev :=
  match o.wordUidGlobal with
  | Option.none => (.error .nameError, [])
  | some _ =>
    if o.wordDownloadOk then
      if o.renderOk then
        if o.convertOk then
          (.ok (), [.tmpFile o.tmpDocx, .tmpFile o.tmpPdf,
                    .removeFile o.tmpDocx, .removeFile o.tmpPdf])
        else (.error .comError, [.tmpFile o.tmpDocx, .tmpFile o.tmpPdf])
      else (.error .renderError, [])
    else (.error .valueError, [])

/-- Deletion dispatch of lines 206-210: a created identifier is deleted as a
folder when the literal substring `'folder'` occurs in the identifier, as a
record otherwise. -/
def delEv (uid : String) : Ev :=
  if strContainsSub "folder" uid then Ev.deleteFolderCall uid else Ev.deleteRecordCall uid

/-- The rollback loop of lines 205-210: attempt a deletion for each created
identifier, in order.  The loop body is not guarded by `try`, so a deletion
that raises aborts the loop (the remaining identifiers are never attempted)
and its exception replaces the original one. -/
def rollback (o : Oracle) : List String → Except PyErr Unit × List Ev
  | [] => (.ok (), [])
  | uid :: rest =>
    if o.deleteOk uid then
      let r := rollback o rest
      (r.1, delEv uid :: r.2)
    else (.error .apiError, [delEv uid])

/-- The `except` branch of lines 203-211: log, run the rollback, re-raise
the original exception (unless the rollback itself raised). -/
def publishFailure (o : Oracle) (created : List String) (orig : PyErr) :
    Except PyErr Unit × List Ev :=
  let r := rollback o created
  (match r.1 with
   | .ok _ => .error orig
   | .error e => .error e,
   Ev.logError :: r.2)

/-- Lines 181-211: create the PDF record under the root folder, upload the
attachment, then `try` the permission call and the one-time share.  Only a
failure inside this `try` triggers the rollback; `created_uids` is
`[root_folder_uid] + subfolder uids + [pdf_record.record_uid]` (line 192) —
the structure records created in the loop are not in it. -/
def publishPhase (o : Oracle) (name rootUid : String) (subMap : List (String × String)) :
    Except PyErr Unit × List Ev :=
  let pdfTitle := name ++ "_Credentials.pdf"
  if o.pdfAddOk then
    let ev0 := Ev.addRecord pdfTitle rootUid
    if o.uploadOk then
      let created_uids := rootUid :: dvalues subMap ++ [o.pdfUid]
      if o.permissionOk then
        if o.shareOk then
          (.ok (), [ev0, Ev.setPermission rootUid, Ev.oneTimeShare o.pdfUid])
        else
          let r := publishFailure o created_uids .apiError
          (r.1, ev0 :: Ev.setPermission rootUid :: r.2)
      else
        let r := publishFailure o created_uids .apiError
        (r.1, ev0 :: r.2)
    else (.error .apiError, [ev0])
  else (.error .apiError, [])

/-- `process_customer` (`keeper_pdf_generator.py` 142-211): provisioning,
context aggregation, render/convert, publication.  Failures propagate to
the caller; only the final permission/share `try` has a handler. -/
def process_customer (o : Oracle) (customer : List (String × String)) (tpl : JsonTemplate)
    (targetUid : String) : Except PyErr Unit × List Ev :=
  match provisionPhase o customer tpl targetUid with
  | (.error e, evs) => (.error e, evs)
  | (.ok pr, evs1) =>
    let rootUid := pr.rootUid
    let subMap := pr.subMap
    match renderConvertPhase o with
    | (.error e, evs2) => (.error e, evs1 ++ evs2)
    | (.ok _, evs2) =>
      match dget "name" customer with
      | Option.none => (.error .keyError, evs1 ++ evs2)
      | some name =>
        let r := publishPhase o name rootUid subMap
        (r.1, evs1 ++ evs2 ++ r.2)

/-- The per-customer loop of `main` (`keeper_pdf_generator.py` 252-256):
no `try` guards the loop body, so the first customer whose processing
raises aborts the whole batch. -/
def main_batch (oFor : Nat → Oracle) (tpl : JsonTemplate) (targetUid : String) (i : Nat) :
    List (List (String × String)) → Except PyErr Unit × List Ev
  | [] => (.ok (), [])
  | c :: rest =>
    match process_customer (oFor i) c tpl targetUid with
    | (.error e, evs) => (.error e, evs)
    | (.ok _, evs) =>
      let r := main_batch oFor tpl targetUid (i + 1) rest
      (r.1, evs ++ r.2)

/-- The batch run of `main`: the loop followed by the `Process completed.`
log (line 256), which is reached only when no customer raised. -/
def main_batch_run (oFor : Nat → Oracle) (tpl : JsonTemplate) (targetUid : String)
    (custs : List (List (String × String))) : Except PyErr Unit × List Ev :=
  match main_batch oFor tpl targetUid 0 custs with
  | (.ok _, evs) => (.ok (), evs ++ [Ev.logCompleted])
  | r => r

/-! ## Concrete fixtures used by counterexamples and witnesses -/

/-- Records whose synthesized keys collide: `a_b` + `c` and `a` + `b_c`
both yield the key `a_b_c`. -/
def c4recs : List (String × List (String × String)) :=
  [("a_b", [("c", "v1")]), ("a", [("b_c", "v2")])]

/-- Distinct-title, underscore-free records for the amended-claim witness. -/
def c4recsW : List (String × List (String × String)) :=
  [("A", [("x", "1"), ("y", "2")]), ("B", [("x", "3")])]

/-! ## Closed-form helpers used in theorem statements -/

/-- The `subfolder_uids` dict produced by a fully successful subfolder loop
starting at creation counter `k`. -/
def subMapOf (o : Oracle) (k : Nat) (acc : List (String × String)) :
    List String → List (String × String)
  | [] => acc
  | sub :: rest => subMapOf o (k + 1) (dinsert sub (o.folderUid k) acc) rest

/-- The creation events of a fully successful subfolder loop. -/
def subEvs (o : Oracle) (rootUid : String) (k : Nat) : List String → List Ev
  | [] => []
  | sub :: rest => Ev.createFolder sub rootUid (o.folderUid k) :: subEvs o rootUid (k + 1) rest

/-- The placement events of a fully successful record loop. -/
def recEvs (rootUid : String) (subMap : List (String × String)) (records : List RecordSpec) :
    List Ev :=
  records.map (fun r => Ev.addRecord r.title ((dget r.folder subMap).getD rootUid))

/-- The created-records list of a fully successful record loop: each record
is stored with its title and an empty field mapping. -/
def createdOf (records : List RecordSpec) : List (String × List (String × String)) :=
  records.map (fun r => (r.title, ([] : List (String × String))))


/-! ## Concrete oracles and fixtures for the generator claims -/

/-- A fully successful oracle: every vault call succeeds, the module global
`word_uid` is defined, and the server assigns uids `F0` (root), `F1`
(subfolder) and `P0` (PDF record). -/
def oK : Oracle :=
  { folderUid := fun k => if k = 0 then "F0" else "F1"
    folderOk := fun _ => true
    recordOk := fun _ => true
    wordUidGlobal := some "W"
    wordDownloadOk := true
    renderOk := true
    tmpDocx := "tmp1.docx"
    tmpPdf := "tmp1.pdf"
    convertOk := true
    pdfUid := "P0"
    pdfAddOk := true
    uploadOk := true
    permissionOk := true
    shareOk := true
    deleteOk := fun _ => true }

/-- Oracle for which the subfolder creation (call 1) fails. -/
def oA : Oracle := { oK with folderOk := fun k => decide (k = 0) }

/-- Oracle for which the permission call fails and every deletion fails. -/
def oB : Oracle := { oK with permissionOk := false, deleteOk := fun _ => false }

/-- Oracle for which the DOCX-to-PDF conversion fails. -/
def oC : Oracle := { oK with convertOk := false }

/-- Oracle for which only the permission call fails (deletions succeed). -/
def oPF : Oracle := { oK with permissionOk := false }

/-- A template with one subfolder and no records. -/
def tplA : JsonTemplate := ⟨"R", ["S"], []⟩

/-- The structure template of the end-to-end scenario of claim C5. -/
def tpl5 : JsonTemplate := ⟨"Acme", ["Docs"], [⟨"Login", "Docs", [("login", "bob")]⟩]⟩

/-- Per-customer oracle family for the batch counterexample: conversion
fails for the second customer (index 1) only. -/
def oBatch : Nat → Oracle := fun i => if i = 1 then oC else oK

/-- Three bulk-mode customers. -/
def custs3 : List (List (String × String)) :=
  [[("name", "N1")], [("name", "N2")], [("name", "N3")]]

/-- Three customers of the system batch: numbers 1 and 3 use the `intern`
template, number 2 the `extern` one. -/
def sysCust3 : List SysCustomer :=
  [⟨"test-extern1.local (100000)", "U1", "intern"⟩,
   ⟨"test-extern2.local (200000)", "U2", "extern"⟩,
   ⟨"test-extern3.local (300000)", "U3", "intern"⟩]

/-- System oracle for which only the `intern` template file exists on disk,
every customer folder has one mailbox record, and PDF generation succeeds. -/
def sysOracle3 : SysOracle :=
  { fileExists := fun p => decide (p = "temp_templates/ENHANCED_intern_template.docx")
    subfolderRecords := fun _ =>
      [⟨"E-Mail-Postfach Typ", [("email", "a@x"), ("password", "pw")]⟩]
    pdfOk := fun _ => true }

/-! # Shared lemmas -/

/-! ## Association-list (Python dict) lemmas -/

theorem dget_dinsert_self (k : String) (v : α) (m : List (String × α)) :
    dget k (dinsert k v m) = some v := by
  induction m with
  | nil => simp [dinsert, dget]
  | cons p rest ih =>
    obtain ⟨k2, v2⟩ := p
    by_cases h : k2 = k
    · simp [dinsert, dget, h]
    · simp [dinsert, dget, h, ih]

theorem dget_dinsert_ne {k k2 : String} (h : k ≠ k2) (v : α) (m : List (String × α)) :
    dget k (dinsert k2 v m) = dget k m := by
  have hne : k2 ≠ k := fun hh => h hh.symm
  induction m with
  | nil => simp [dinsert, dget, hne]
  | cons p rest ih =>
    obtain ⟨k3, v3⟩ := p
    by_cases h3 : k3 = k2
    · subst h3
      simp [dinsert, dget, hne]
    · simp [dinsert, dget, h3, ih]

theorem dget_foldl_not_mem {k : String} (pairs : List (String × α)) :
    ∀ m : List (String × α), k ∉ pairs.map Prod.fst →
      dget k (pairs.foldl (fun m p => dinsert p.1 p.2 m) m) = dget k m := by
  induction pairs with
  | nil => intro m _; simp
  | cons p rest ih =>
    intro m hm
    simp only [List.map_cons, List.mem_cons] at hm
    push_neg at hm
    simp only [List.foldl_cons]
    rw [ih _ hm.2, dget_dinsert_ne hm.1]

theorem dget_foldl_of_nodup (pairs : List (String × α)) :
    ∀ m : List (String × α), (pairs.map Prod.fst).Nodup →
      ∀ kv ∈ pairs, dget kv.1 (pairs.foldl (fun m p => dinsert p.1 p.2 m) m) = some kv.2 := by
  induction pairs with
  | nil => intro m _ kv hkv; cases hkv
  | cons p rest ih =>
    intro m hk kv hmem
    simp only [List.map_cons, List.nodup_cons] at hk
    rcases List.mem_cons.mp hmem with h | h
    · subst h
      simp only [List.foldl_cons]
      rw [dget_foldl_not_mem rest _ hk.1, dget_dinsert_self]
    · exact ih _ hk.2 kv h

theorem dinsert_append_of_not_mem {k : String} (v : α) :
    ∀ m : List (String × α), k ∉ m.map Prod.fst → dinsert k v m = m ++ [(k, v)] := by
  intro m
  induction m with
  | nil => intro _; simp [dinsert]
  | cons p rest ih =>
    intro hm
    obtain ⟨k2, v2⟩ := p
    simp only [List.map_cons, List.mem_cons] at hm
    push_neg at hm
    have hne : k2 ≠ k := fun hh => hm.1 hh.symm
    simp [dinsert, hne, ih hm.2]

theorem foldl_dinsert_all_new (recs : List (String × α)) :
    ∀ m : List (String × α), (∀ k ∈ recs.map Prod.fst, k ∉ m.map Prod.fst) →
      (recs.map Prod.fst).Nodup →
      recs.foldl (fun m r => dinsert r.1 r.2 m) m = m ++ recs := by
  induction recs with
  | nil => intro m _ _; simp
  | cons r rest ih =>
    intro m hdisj hn
    simp only [List.map_cons, List.nodup_cons] at hn
    simp only [List.foldl_cons]
    rw [dinsert_append_of_not_mem r.2 m (hdisj r.1 (by simp))]
    rw [ih (m ++ [(r.1, r.2)]) ?_ hn.2]
    · simp
    · intro k hk
      simp only [List.map_append, List.mem_append, List.map_cons, List.map_nil,
        List.mem_singleton]
      push_neg
      refine ⟨hdisj k (by simp [hk]), ?_⟩
      intro hEq
      subst hEq
      exact hn.1 hk

theorem get_folder_records_model_nodup_id (recs : List (String × List (String × String)))
    (hn : (recs.map Prod.fst).Nodup) : get_folder_records_model recs = recs := by
  unfold get_folder_records_model
  rw [foldl_dinsert_all_new recs [] (by simp) hn]
  simp

/-! ## Key-synthesis lemmas -/

theorem mkKey_data (t f : String) : (mkKey t f).data = t.data ++ '_' :: f.data := rfl

theorem mkKey_inj_title {t f1 f2 : String} (h : mkKey t f1 = mkKey t f2) : f1 = f2 := by
  have h2 : t.data ++ '_' :: f1.data = t.data ++ '_' :: f2.data := congrArg String.data h
  have h3 := List.append_cancel_left h2
  exact String.ext (List.cons.inj h3).2

theorem underscore_split {t1 t2 f1 f2 : List Char} (h1 : ('_' : Char) ∉ t1)
    (h2 : ('_' : Char) ∉ t2) (h : t1 ++ '_' :: f1 = t2 ++ '_' :: f2) : t1 = t2 ∧ f1 = f2 := by
  induction t1 generalizing t2 with
  | nil =>
    cases t2 with
    | nil => simpa using h
    | cons c t2t =>
      simp only [List.nil_append, List.cons_append, List.cons.injEq] at h
      exact absurd (h.1 ▸ List.mem_cons_self c t2t) h2
  | cons c t1t ih =>
    cases t2 with
    | nil =>
      simp only [List.nil_append, List.cons_append, List.cons.injEq] at h
      exact absurd (h.1.symm ▸ List.mem_cons_self c t1t) h1
    | cons d t2t =>
      simp only [List.cons_append, List.cons.injEq] at h
      have h1t : ('_' : Char) ∉ t1t := fun hm => h1 (List.mem_cons_of_mem c hm)
      have h2t : ('_' : Char) ∉ t2t := fun hm => h2 (List.mem_cons_of_mem d hm)
      obtain ⟨ht, hf⟩ := ih h1t h2t h.2
      exact ⟨by rw [h.1, ht], hf⟩

theorem mkKey_inj {t1 t2 f1 f2 : String} (hu1 : ('_' : Char) ∉ t1.data)
    (hu2 : ('_' : Char) ∉ t2.data) (h : mkKey t1 f1 = mkKey t2 f2) : t1 = t2 ∧ f1 = f2 := by
  have h2 : t1.data ++ '_' :: f1.data = t2.data ++ '_' :: f2.data := congrArg String.data h
  obtain ⟨ht, hf⟩ := underscore_split hu1 hu2 h2
  exact ⟨String.ext ht, String.ext hf⟩

/-! ## Context-aggregation lemmas -/

theorem aggregate_foldl_flat (records : List (String × List (String × String))) :
    ∀ init : List (String × String),
      records.foldl
        (fun ctx r => r.2.foldl (fun ctx fv => dinsert (mkKey r.1 fv.1) fv.2 ctx) ctx) init =
      (records.flatMap (fun r => r.2.map fun fv => (mkKey r.1 fv.1, fv.2))).foldl
        (fun m kv => dinsert kv.1 kv.2 m) init := by
  induction records with
  | nil => intro init; simp
  | cons r rest ih =>
    intro init
    simp only [List.foldl_cons, List.flatMap_cons, List.foldl_append, List.foldl_map]
    exact ih _

theorem aggregateContext_eq_foldl (name : String)
    (records : List (String × List (String × String))) :
    aggregateContext name records =
      (records.flatMap (fun r => r.2.map fun fv => (mkKey r.1 fv.1, fv.2))).foldl
        (fun m kv => dinsert kv.1 kv.2 m) [("customer_name", name)] := by
  unfold aggregateContext
  exact aggregate_foldl_flat records _

/-! # Claim C8 -/

/-- C8: for every customer name and vault data, the template context has
`imap_server = "imap.<domain>.local"` and `pop_server = "pop.<domain>.local"`
synthesized from the customer domain, `smtp_server` falls back to
`"smtp.<domain>.local"` exactly when no SMTP server value was extracted
(the extracted value is the empty string), and the ports are the constants
`993`, `995`, `465`. -/
theorem C8_mail_servers_and_ports (name : String) (vd : VaultData) :
    (build_template_context name vd).imap_server =
      "imap." ++ customerDomain name ++ ".local" ∧
    (build_template_context name vd).pop_server =
      "pop." ++ customerDomain name ++ ".local" ∧
    ((build_template_context name vd).smtp_server =
      if vd.smtp_server = "" then "smtp." ++ customerDomain name ++ ".local"
      else vd.smtp_server) ∧
    (build_template_context name vd).imap_port = "993" ∧
    (build_template_context name vd).pop_port = "995" ∧
    (build_template_context name vd).smtp_port = "465" := by
  refine ⟨rfl, rfl, ?_, rfl, rfl, rfl⟩
  simp [build_template_context, pyOrS]

/-! # Claim C10 -/

/-- C10 counterexample: the three-character string `"[']"` passes the
`startswith`/`endswith` test of `_clean_field_value` although it is not of
the shape `"['x']"` for any `x`, and the function returns `""` for it
instead of its string form, so "any other value yields its string form" is
false at this truthy input. -/
theorem C10_counterexample :
    (∀ x : String, ("[\x27]" : String) ≠ lbq ++ x ++ rbq) ∧
    pyTruthy (.str "[\x27]") = true ∧
    (∀ h t, PyValue.str "[\x27]" ≠ PyValue.list (h :: t)) ∧
    clean_field_value (.str "[\x27]") = "" ∧
    pyStr (.str "[\x27]") = "[\x27]" := by
  refine ⟨?_, by decide, fun h t hh => PyValue.noConfusion hh, by decide, by decide⟩
  intro x h
  have hd : ("[\x27]" : String).data = (lbq ++ x ++ rbq).data := congrArg String.data h
  rw [String.data_append, String.data_append] at hd
  have hl := congrArg List.length hd
  simp only [List.length_append] at hl
  simp [lbq, rbq] at hl
  omega

/-- C10 amended: `_clean_field_value` always returns a string; a string of
the exact shape `"['x']"` is stripped to `x`; a non-empty list yields the
string form of its first element; every falsy value yields `""`; a truthy
value that is neither a non-empty list nor a string passing the
`startswith("['")`/`endswith("']")` test yields its string form; and the
one truthy string passing that test without being of the shape `"['x']"`,
the three-character string `"[']"`, yields `""` (its first two and last two
characters are removed, leaving nothing). -/
theorem C10_amended (v : PyValue) :
    (∀ x : String, v = .str (lbq ++ x ++ rbq) → clean_field_value v = x) ∧
    (∀ h t, v = .list (h :: t) → clean_field_value v = pyStr h) ∧
    (pyTruthy v = false → clean_field_value v = "") ∧
    ((∀ s, v = .str s → (strStarts s lbq && strEnds s rbq) = false) →
      (∀ h t, v ≠ .list (h :: t)) → pyTruthy v = true → clean_field_value v = pyStr v) ∧
    (v = .str "[\x27]" → clean_field_value v = "") := by
  refine ⟨?_, ?_, ?_, ?_, ?_⟩
  · rintro x rfl
    have hdata : (lbq ++ x ++ rbq).data = '[' :: '\x27' :: (x.data ++ ['\x27', ']']) := by
      rw [String.data_append, String.data_append]
      simp [lbq, rbq]
    have hstarts : strStarts (lbq ++ x ++ rbq) lbq = true := by
      simp [strStarts, hdata, lbq, tokAt]
    have hends : strEnds (lbq ++ x ++ rbq) rbq = true := by
      simp only [strEnds, hdata, rbq]
      simp [tokAt, List.reverse_append]
    have hslice : pySlice2m2 (lbq ++ x ++ rbq) = x := by
      simp only [pySlice2m2, hdata]
      simp only [List.drop, List.length_cons, List.length_append, List.length_cons,
        List.length_nil]
      have : x.data.length + (0 + 1 + 1) + 1 + 1 - 4 = x.data.length := by omega
      rw [this, List.take_append_of_le_length (Nat.le_refl _), List.take_length]
    simp [clean_field_value, hstarts, hends, hslice]
  · rintro h t rfl
    simp [clean_field_value]
  · intro hf
    cases v with
    | str s =>
      have hs : s = "" := by
        have := hf
        simp [pyTruthy, List.isEmpty_iff] at this
        exact String.ext this
      subst hs
      simp [clean_field_value, strStarts, lbq, tokAt]
    | int n => simp [pyTruthy] at hf; simp [clean_field_value, pyTruthy, hf]
    | bool b => simp [pyTruthy] at hf; simp [clean_field_value, pyTruthy, hf]
    | none => simp [clean_field_value, pyTruthy]
    | list l =>
      cases l with
      | nil => simp [clean_field_value, pyTruthy]
      | cons h t => simp [pyTruthy] at hf
  · intro hstr hlist ht
    cases v with
    | str s => simp [clean_field_value, hstr s rfl, ht, pyStr]
    | int n => simp [clean_field_value, ht]
    | bool b => simp [clean_field_value, ht]
    | none => simp [pyTruthy] at ht
    | list l =>
      cases l with
      | nil => simp [pyTruthy] at ht
      | cons h t => exact absurd rfl (hlist h t)
  · rintro rfl
    decide

/-- C10 witness: the amended claim applied at two concrete inputs — the
shaped string `"['bob']"` is stripped to `bob`, and the truthy non-list
value `True` is rendered by `str`. -/
theorem C10_amended_witness :
    clean_field_value (.str (lbq ++ "bob" ++ rbq)) = "bob" ∧
    clean_field_value (.bool true) = "True" := by
  constructor
  · exact (C10_amended (.str (lbq ++ "bob" ++ rbq))).1 "bob" rfl
  · have h := (C10_amended (.bool true)).2.2.2.1
      (fun s hh => PyValue.noConfusion hh) (fun h t hh => PyValue.noConfusion hh) (by decide)
    simpa [pyStr, pyRepr] using h

/-! # Claim C4 -/

/-- C4 counterexample: the synthesized keys are not pairwise distinct for
distinct record/field pairs — the distinct pairs `(a_b, c)` and `(a, b_c)`
both synthesize the key `a_b_c`, and in the aggregated context that key
holds only the later value `v2`, the value `v1` having been overwritten
(it appears nowhere in the context). -/
theorem C4_counterexample :
    mkKey "a_b" "c" = mkKey "a" "b_c" ∧
    (("a_b", "c") : String × String) ≠ ("a", "b_c") ∧
    dget "a_b_c" (aggregateContext "N" (get_folder_records_model c4recs)) = some "v2" ∧
    "v1" ∉ dvalues (aggregateContext "N" (get_folder_records_model c4recs)) := by
  refine ⟨by decide, by decide, by decide, by decide⟩

/-- C4 amended: key synthesis `<title>_<field>` is injective in the field
name for a fixed title, but distinct record/field pairs can collide when an
underscore placement is ambiguous; under the additional hypotheses that
record titles are pairwise distinct and contain no underscore and that
field names are unique within each record, all synthesized keys are
pairwise distinct and the aggregated context maps each key to the value of
exactly its record/field pair. -/
theorem C4_amended (name : String) (records : List (String × List (String × String)))
    (ht : (records.map Prod.fst).Nodup)
    (hu : ∀ r ∈ records, ('_' : Char) ∉ r.1.data)
    (hf : ∀ r ∈ records, (r.2.map Prod.fst).Nodup) :
    (records.flatMap (fun r => r.2.map fun fv => mkKey r.1 fv.1)).Nodup ∧
    ∀ r ∈ records, ∀ fv ∈ r.2,
      dget (mkKey r.1 fv.1)
        (aggregateContext name (get_folder_records_model records)) = some fv.2 := by
  have hkeys : (records.flatMap (fun r => r.2.map fun fv => mkKey r.1 fv.1)).Nodup := by
    rw [List.nodup_flatMap]
    constructor
    · intro r hr
      have : (r.2.map fun fv => mkKey r.1 fv.1) = (r.2.map Prod.fst).map (mkKey r.1) := by
        simp [List.map_map, Function.comp]
      rw [this]
      exact (hf r hr).map (fun f1 f2 h => mkKey_inj_title h)
    · have hpw : records.Pairwise (fun r1 r2 => r1.1 ≠ r2.1) :=
        List.pairwise_map.mp ht
      exact hpw.imp_of_mem (fun ha hb hne => by
        intro key hk1 hk2
        simp only [List.mem_map] at hk1 hk2
        obtain ⟨fv1, _, hkey1⟩ := hk1
        obtain ⟨fv2, _, hkey2⟩ := hk2
        have := mkKey_inj (hu _ ha) (hu _ hb) (hkey1.trans hkey2.symm)
        exact hne this.1)
  refine ⟨hkeys, ?_⟩
  intro r hr fv hfv
  rw [get_folder_records_model_nodup_id records ht, aggregateContext_eq_foldl]
  have hmem : (mkKey r.1 fv.1, fv.2) ∈
      records.flatMap (fun r => r.2.map fun fv => (mkKey r.1 fv.1, fv.2)) := by
    rw [List.mem_flatMap]
    exact ⟨r, hr, List.mem_map.mpr ⟨fv, hfv, rfl⟩⟩
  have hknodup :
      ((records.flatMap (fun r => r.2.map fun fv => (mkKey r.1 fv.1, fv.2))).map
        Prod.fst).Nodup := by
    have : (records.flatMap (fun r => r.2.map fun fv => (mkKey r.1 fv.1, fv.2))).map Prod.fst =
        records.flatMap (fun r => r.2.map fun fv => mkKey r.1 fv.1) := by
      simp [List.map_flatMap, List.map_map, Function.comp_def]
    rw [this]
    exact hkeys
  exact dget_foldl_of_nodup _ _ hknodup (mkKey r.1 fv.1, fv.2) hmem

/-- C4 witness: the amended claim applied to two concrete records with
distinct underscore-free titles and per-record-unique field names. -/
theorem C4_amended_witness :
    dget (mkKey "A" "x") (aggregateContext "N" (get_folder_records_model c4recsW)) =
      some "1" := by
  have h := (C4_amended "N" c4recsW (by decide) (by decide) (by decide)).2
    ("A", [("x", "1"), ("y", "2")]) (by decide) ("x", "1") (by decide)
  exact h

/-! ## Token-replacement lemmas -/

theorem tokAt_iff (tok : List Char) : ∀ s, tokAt tok s = true ↔ ∃ u, s = tok ++ u := by
  induction tok with
  | nil => intro s; simp [tokAt]
  | cons t ts ih =>
    intro s
    cases s with
    | nil => simp [tokAt]
    | cons c cs =>
      simp only [tokAt, Bool.and_eq_true, decide_eq_true_eq]
      rw [ih cs]
      constructor
      · rintro ⟨rfl, u, rfl⟩
        exact ⟨u, rfl⟩
      · rintro ⟨u, hu⟩
        simp only [List.cons_append, List.cons.injEq] at hu
        exact ⟨hu.1.symm, u, hu.2⟩

theorem tokAt_append_self (ts u : List Char) : tokAt ts (ts ++ u) = true := by
  induction ts with
  | nil => simp [tokAt]
  | cons t ts2 ih => simp [tokAt, ih]

theorem occursB_of_tokAt {tok s : List Char} (h : tokAt tok s = true) : occursB tok s = true := by
  cases s with
  | nil =>
    cases tok with
    | nil => simp [occursB]
    | cons t ts => simp [tokAt] at h
  | cons c cs => simp [occursB, h]

theorem tokCN_cons : tokCN = '$' :: tsCN := by decide

theorem tokCN_length : tokCN.length = 16 := by decide

theorem tokCN_no_border : ∀ j, j < 16 → 1 ≤ j → tokCN.drop j ≠ tokCN.take (16 - j) := by
  decide

theorem head_match_in_left {l1 r : List Char} (hl : l1 ≠ [])
    (h : tokAt tokCN (l1 ++ (tokCN ++ r)) = true) : occursB tokCN l1 = true := by
  obtain ⟨u, hu⟩ := (tokAt_iff tokCN _).mp h
  rcases List.append_eq_append_iff.mp hu with ⟨a2, ha2, hrest⟩ | ⟨c2, hc2, _⟩
  · by_cases haz : a2 = []
    · subst haz
      rw [List.append_nil] at ha2
      rw [← ha2]
      exact occursB_of_tokAt ((tokAt_iff _ _).mpr ⟨[], (List.append_nil _).symm⟩)
    · exfalso
      have hlen : l1.length + a2.length = 16 := by
        have hc := congrArg List.length ha2
        rw [tokCN_length, List.length_append] at hc
        omega
      have hdrop : tokCN.drop l1.length = a2 := by rw [ha2, List.drop_left]
      have htake : tokCN.take a2.length = a2 := by
        have h1 : (tokCN ++ r).take a2.length = a2 := by
          rw [hrest, List.take_left]
        rw [List.take_append_of_le_length (by rw [tokCN_length]; omega)] at h1
        exact h1
      have hj1 : 1 ≤ l1.length := by
        cases l1 with
        | nil => exact absurd rfl hl
        | cons a b => simp
      have hj2 : l1.length < 16 := by
        have : 1 ≤ a2.length := by
          cases a2 with
          | nil => exact absurd rfl haz
          | cons a b => simp
        omega
      refine tokCN_no_border l1.length hj2 hj1 ?_
      rw [hdrop, show 16 - l1.length = a2.length by omega, htake]
  · rw [hc2]
    exact occursB_of_tokAt ((tokAt_iff _ _).mpr ⟨c2, rfl⟩)

theorem replaceFuel_irrel (tok rep : List Char) :
    ∀ f1 f2 (s : List Char), s.length ≤ f1 → s.length ≤ f2 →
      replaceFuel tok rep f1 s = replaceFuel tok rep f2 s := by
  intro f1
  induction f1 with
  | zero =>
    intro f2 s h1 _
    have hs : s = [] := List.eq_nil_of_length_eq_zero (Nat.le_zero.mp h1)
    subst hs
    cases f2 <;> rfl
  | succ n ih =>
    intro f2 s h1 h2
    cases s with
    | nil => cases f2 <;> rfl
    | cons c rest =>
      cases f2 with
      | zero => simp at h2
      | succ m =>
        simp only [replaceFuel]
        cases tok with
        | nil => rfl
        | cons t ts =>
          simp only [List.length_cons, Nat.succ_le_succ_iff] at h1 h2
          by_cases hc : (decide (t = c) && tokAt ts rest) = true
          · simp only [hc, if_true]
            congr 1
            exact ih m _ (by rw [List.length_drop]; omega) (by rw [List.length_drop]; omega)
          · simp only [hc, if_false, Bool.false_eq_true]
            congr 1
            exact ih m rest h1 h2

theorem replaceFuel_id (tok rep : List Char) :
    ∀ f (s : List Char), occursB tok s = false → replaceFuel tok rep f s = s := by
  intro f
  induction f with
  | zero => intro s _; rfl
  | succ n ih =>
    intro s h
    cases s with
    | nil => rfl
    | cons c rest =>
      simp only [occursB, Bool.or_eq_false_iff] at h
      simp only [replaceFuel]
      cases tok with
      | nil => simp [tokAt] at h
      | cons t ts =>
        simp only [tokAt] at h
        simp only [h.1, if_false, Bool.false_eq_true]
        rw [ih rest h.2]

theorem replaceL_id (tok rep s : List Char) (h : occursB tok s = false) :
    replaceL tok rep s = s :=
  replaceFuel_id tok rep s.length s h


theorem replaceFuel_splits (rep : List Char) :
    ∀ f (l r : List Char), l.length + 16 + r.length ≤ f → occursB tokCN l = false →
      ∃ f2, r.length ≤ f2 ∧
        replaceFuel tokCN rep f (l ++ (tokCN ++ r)) = l ++ rep ++ replaceFuel tokCN rep f2 r := by
  intro f
  induction f with
  | zero => intro l r hlen _; omega
  | succ n ih =>
    intro l r hlen hocc
    cases l with
    | nil =>
      refine ⟨n, by simp at hlen; omega, ?_⟩
      rw [List.nil_append, List.nil_append, tokCN_cons, List.cons_append]
      simp only [replaceFuel]
      rw [if_pos (by simp [tokAt_append_self])]
      rw [List.drop_left]
    | cons c l2 =>
      have hocc2 : tokAt tokCN (c :: l2) = false ∧ occursB tokCN l2 = false := by
        have h2 := hocc
        simp only [occursB, Bool.or_eq_false_iff] at h2
        exact h2
      obtain ⟨f2, hf2, heq⟩ :=
        ih l2 r (by simp only [List.length_cons] at hlen; omega) hocc2.2
      refine ⟨f2, hf2, ?_⟩
      have hcond : tokAt tokCN (c :: (l2 ++ (tokCN ++ r))) = false := by
        cases hc : tokAt tokCN (c :: (l2 ++ (tokCN ++ r))) with
        | false => rfl
        | true =>
          have habs := head_match_in_left (List.cons_ne_nil c l2) (by
            rw [List.cons_append]
            exact hc)
          rw [habs] at hocc
          exact absurd hocc (by simp)
      rw [tokCN_cons] at hcond
      simp only [tokAt] at hcond
      simp only [List.cons_append]
      rw [tokCN_cons]
      simp only [replaceFuel]
      rw [if_neg (fun hP => absurd hP (by simp only [hcond]; simp))]
      rw [← tokCN_cons, heq]

theorem replaceL_splits (rep l r : List Char) (h : occursB tokCN l = false) :
    replaceL tokCN rep (l ++ (tokCN ++ r)) = l ++ rep ++ replaceL tokCN rep r := by
  unfold replaceL
  obtain ⟨f2, hf2, heq⟩ := replaceFuel_splits rep (l ++ (tokCN ++ r)).length l r
    (by simp [List.length_append, tokCN_length]; omega) h
  rw [heq]
  congr 1
  exact replaceFuel_irrel tokCN rep f2 r.length r hf2 (Nat.le_refl _)

/-! # Claim C2 -/

/-- C2 counterexample: with the mapping `{name: A, email: x}`, the token
`${email}` — whose name `email` is present in the mapping — is left
untouched by `substitute_placeholders` (only `${customer_name}` is ever
substituted), and with an empty mapping the function raises `KeyError`
instead of never raising. -/
theorem C2_counterexample :
    dget "email" [("name", "A"), ("email", "x")] = some "x" ∧
    substitute_placeholders ⟨"$\x7bemail\x7d", [], []⟩ [("name", "A"), ("email", "x")] =
      .ok ⟨"$\x7bemail\x7d", [], []⟩ ∧
    occursB "$\x7bemail\x7d".data "$\x7bemail\x7d".data = true ∧
    substitute_placeholders ⟨"ok", [], []⟩ [] = .error .keyError := by
  refine ⟨by decide, by rfl, by decide, by rfl⟩

/-- C2 amended: `substitute_placeholders` substitutes only the single token
`${customer_name}`, replacing every occurrence of it by the mapping's
`name` value throughout the template; every other token is left unresolved
no matter what the mapping contains (a template without an occurrence of
`${customer_name}` is returned unchanged); and it raises `KeyError` exactly
when `name` is absent from the mapping. -/
theorem C2_amended :
    (∀ (tpl : JsonTemplate) (cust : List (String × String)),
        dget "name" cust = (Option.none : Option String) →
        substitute_placeholders tpl cust = .error .keyError) ∧
    (∀ (tpl : JsonTemplate) (cust : List (String × String)) (v : String),
        dget "name" cust = some v →
        substitute_placeholders tpl cust = .ok (substTemplate v tpl)) ∧
    (∀ s rep : List Char, occursB tokCN s = false → replaceL tokCN rep s = s) ∧
    (∀ l r rep : List Char, occursB tokCN l = false →
        replaceL tokCN rep (l ++ (tokCN ++ r)) = l ++ rep ++ replaceL tokCN rep r) := by
  refine ⟨?_, ?_, ?_, ?_⟩
  · intro tpl cust h
    simp [substitute_placeholders, h]
  · intro tpl cust v h
    simp [substitute_placeholders, h]
  · intro s rep h
    exact replaceL_id tokCN rep s h
  · intro l r rep h
    exact replaceL_splits rep l r h

/-- C2 witness: the amended claim at concrete inputs — a template whose
root-folder name contains the token once is substituted there, and the
split equation replaces a concrete occurrence between token-free
surroundings. -/
theorem C2_amended_witness :
    substitute_placeholders ⟨"$\x7bcustomer_name\x7d GmbH", ["Docs"], []⟩ [("name", "Acme")] =
      .ok ⟨"Acme GmbH", ["Docs"], []⟩ ∧
    replaceL tokCN "Acme".data ("pre ".data ++ (tokCN ++ " post".data)) =
      "pre ".data ++ "Acme".data ++ " post".data := by
  constructor
  · rw [C2_amended.2.1 ⟨"$\x7bcustomer_name\x7d GmbH", ["Docs"], []⟩ [("name", "Acme")]
      "Acme" (by decide)]
    decide
  · rw [C2_amended.2.2.2 "pre ".data " post".data "Acme".data (by decide)]
    decide

/-! ## Lexicographic-order and stable-sort lemmas -/

theorem charToNat_inj {a b : Char} (h : a.toNat = b.toNat) : a = b :=
  Char.ext (UInt32.ext_iff.mpr h)

theorem lexLe_total : ∀ a b : List Char, lexLe a b = false → lexLe b a = true := by
  intro a
  induction a with
  | nil => intro b h; simp [lexLe] at h
  | cons x as ih =>
    intro b h
    cases b with
    | nil => simp [lexLe]
    | cons y bs =>
      by_cases hxy : x = y
      · subst hxy
        simp only [lexLe, if_pos rfl] at h ⊢
        exact ih bs h
      · have hyx : y ≠ x := fun hh => hxy hh.symm
        simp only [lexLe, if_neg hxy, decide_eq_false_iff_not, Nat.not_lt] at h
        simp only [lexLe, if_neg hyx, decide_eq_true_eq]
        rcases Nat.lt_or_ge y.toNat x.toNat with hlt | hge
        · exact hlt
        · exact absurd (charToNat_inj (Nat.le_antisymm h hge)) hyx
  
theorem lexLe_antisymm : ∀ a b : List Char, lexLe a b = true → lexLe b a = true → a = b := by
  intro a
  induction a with
  | nil =>
    intro b h1 h2
    cases b with
    | nil => rfl
    | cons y bs => simp [lexLe] at h2
  | cons x as ih =>
    intro b h1 h2
    cases b with
    | nil => simp [lexLe] at h1
    | cons y bs =>
      by_cases hxy : x = y
      · subst hxy
        simp only [lexLe, if_pos rfl] at h1 h2
        rw [ih bs h1 h2]
      · have hyx : y ≠ x := fun hh => hxy hh.symm
        simp only [lexLe, if_neg hxy, decide_eq_true_eq] at h1
        simp only [lexLe, if_neg hyx, decide_eq_true_eq] at h2
        omega

theorem lexLe_trans : ∀ a b c : List Char,
    lexLe a b = true → lexLe b c = true → lexLe a c = true := by
  intro a
  induction a with
  | nil => intro b c _ _; simp [lexLe]
  | cons x as ih =>
    intro b c h1 h2
    cases b with
    | nil => simp [lexLe] at h1
    | cons y bs =>
      cases c with
      | nil => simp [lexLe] at h2
      | cons z cs =>
        by_cases hxy : x = y <;> by_cases hyz : y = z
        · subst hxy; subst hyz
          simp only [lexLe, if_pos rfl] at h1 h2 ⊢
          exact ih bs cs h1 h2
        · subst hxy
          simp only [lexLe, if_pos rfl] at h1
          simp only [lexLe, if_neg hyz, decide_eq_true_eq] at h2
          have hxz : x ≠ z := fun hh => by subst hh; omega
          simp only [lexLe, if_neg hxz, decide_eq_true_eq]
          exact h2
        · subst hyz
          simp only [lexLe, if_neg hxy, decide_eq_true_eq] at h1
          simp only [lexLe, if_neg hxy, decide_eq_true_eq]
          exact h1
        · simp only [lexLe, if_neg hxy, decide_eq_true_eq] at h1
          simp only [lexLe, if_neg hyz, decide_eq_true_eq] at h2
          have hxz : x ≠ z := fun hh => by subst hh; omega
          simp only [lexLe, if_neg hxz, decide_eq_true_eq]
          omega

theorem emailKeyLe_total (a b : EmailEntry) (h : emailKeyLe a b = false) :
    emailKeyLe b a = true :=
  lexLe_total _ _ h

theorem emailKeyLe_trans {a b c : EmailEntry} (h1 : emailKeyLe a b = true)
    (h2 : emailKeyLe b c = true) : emailKeyLe a c = true :=
  lexLe_trans _ _ _ h1 h2

theorem insertE_perm (x : EmailEntry) : ∀ l, (insertE x l).Perm (x :: l) := by
  intro l
  induction l with
  | nil => exact List.Perm.refl _
  | cons y ys ih =>
    by_cases h : emailKeyLe x y = true
    · simp [insertE, h]
    · simp only [insertE, h, if_false, Bool.false_eq_true]
      exact (ih.cons y).trans (List.Perm.swap x y ys)

theorem sortE_perm : ∀ l, (sortE l).Perm l := by
  intro l
  induction l with
  | nil => exact List.Perm.refl _
  | cons x xs ih => exact (insertE_perm x (sortE xs)).trans (ih.cons x)

theorem insertE_pairwise (x : EmailEntry) :
    ∀ l, List.Pairwise (fun a b => emailKeyLe a b = true) l →
      List.Pairwise (fun a b => emailKeyLe a b = true) (insertE x l) := by
  intro l
  induction l with
  | nil => intro _; simp [insertE]
  | cons y ys ih =>
    intro h
    rw [List.pairwise_cons] at h
    by_cases hxy : emailKeyLe x y = true
    · simp only [insertE, hxy, if_true]
      rw [List.pairwise_cons]
      refine ⟨?_, List.pairwise_cons.mpr h⟩
      intro z hz
      rcases List.mem_cons.mp hz with rfl | hz2
      · exact hxy
      · exact emailKeyLe_trans hxy (h.1 z hz2)
    · simp only [insertE, hxy, if_false, Bool.false_eq_true]
      rw [List.pairwise_cons]
      refine ⟨?_, ih h.2⟩
      intro z hz
      have hmem := (insertE_perm x ys).mem_iff.mp hz
      rcases List.mem_cons.mp hmem with rfl | hz2
      · exact emailKeyLe_total z y (by simpa using hxy)
      · exact h.1 z hz2

theorem sortE_pairwise : ∀ l, List.Pairwise (fun a b => emailKeyLe a b = true) (sortE l) := by
  intro l
  induction l with
  | nil => simp [sortE]
  | cons x xs ih => exact insertE_pairwise x (sortE xs) ih

theorem sorted_perm_nodup_eq :
    ∀ s1 s2 : List EmailEntry, s1.Perm s2 →
      List.Pairwise (fun a b => emailKeyLe a b = true) s1 →
      List.Pairwise (fun a b => emailKeyLe a b = true) s2 →
      (s1.map EmailEntry.email).Nodup → s1 = s2 := by
  intro s1
  induction s1 with
  | nil =>
    intro s2 hperm _ _ _
    exact hperm.nil_eq
  | cons a t1 ih =>
    intro s2 hperm hp1 hp2 hn
    cases s2 with
    | nil => exact absurd hperm.symm.nil_eq (by simp)
    | cons b t2 =>
      rw [List.pairwise_cons] at hp1 hp2
      have hab : a = b := by
        have hbmem : b ∈ a :: t1 := hperm.symm.subset (List.mem_cons_self b t2)
        have hamem : a ∈ b :: t2 := hperm.subset (List.mem_cons_self a t1)
        rcases List.mem_cons.mp hbmem with hba | hbt1
        · exact hba.symm
        · rcases List.mem_cons.mp hamem with hab2 | hat2
          · exact hab2
          · have h1 : emailKeyLe a b = true := hp1.1 b hbt1
            have h2 : emailKeyLe b a = true := hp2.1 a hat2
            have hemail : a.email = b.email :=
              String.ext (lexLe_antisymm _ _ h1 h2)
            exact List.inj_on_of_nodup_map hn (List.mem_cons_self a t1) hbmem hemail
      subst hab
      have htperm : t1.Perm t2 := hperm.cons_inv
      rw [ih t2 htperm hp1.2 hp2.2 (by
        rw [List.map_cons, List.nodup_cons] at hn
        exact hn.2)]

/-! # Claim C9 -/

/-- C9 counterexample: the assignment is not invariant under permutation of
the extracted email entries.  Two entries share the email address `a` with
different passwords; Python `sorted` is stable, so the input order decides
which password becomes `primary_email_password`, and the two permuted
inputs produce different contexts. -/
theorem C9_counterexample :
    ([⟨"a", "p1"⟩, ⟨"a", "p2"⟩] : List EmailEntry).Perm [⟨"a", "p2"⟩, ⟨"a", "p1"⟩] ∧
    build_template_context "test.local (1)"
        { initVaultData with emails := [⟨"a", "p1"⟩, ⟨"a", "p2"⟩] } ≠
      build_template_context "test.local (1)"
        { initVaultData with emails := [⟨"a", "p2"⟩, ⟨"a", "p1"⟩] } := by
  constructor
  · exact List.Perm.swap _ _ _
  · decide

/-- C9 amended: the primary/secondary assignment is invariant under
permutation of the extracted email entries provided their email addresses
are pairwise distinct (with duplicate addresses the stable sort lets the
input order through); the entries are ordered lexicographically by email
address (the sort is a permutation of the input, sorted under the email-key
order, the first entry becomes primary and the second secondary), and with
fewer than two entries the remaining primary/secondary fields are empty. -/
theorem C9_amended (name : String) (vd : VaultData) (l1 l2 : List EmailEntry)
    (hperm : l1.Perm l2) (hn : (l1.map EmailEntry.email).Nodup) :
    (build_template_context name { vd with emails := l1 } =
      build_template_context name { vd with emails := l2 }) ∧
    ((sortE vd.emails).Perm vd.emails ∧
      List.Pairwise (fun a b => emailKeyLe a b = true) (sortE vd.emails)) ∧
    (vd.emails = [] →
      (build_template_context name vd).primary_email = "" ∧
      (build_template_context name vd).primary_email_password = "" ∧
      (build_template_context name vd).secondary_email = "" ∧
      (build_template_context name vd).secondary_email_password = "") ∧
    (∀ e : EmailEntry, vd.emails = [e] →
      (build_template_context name vd).primary_email = e.email ∧
      (build_template_context name vd).primary_email_password = e.password ∧
      (build_template_context name vd).secondary_email = "" ∧
      (build_template_context name vd).secondary_email_password = "") ∧
    (∀ e1 e2 es, sortE vd.emails = e1 :: e2 :: es →
      (build_template_context name vd).primary_email = e1.email ∧
      (build_template_context name vd).primary_email_password = e1.password ∧
      (build_template_context name vd).secondary_email = e2.email ∧
      (build_template_context name vd).secondary_email_password = e2.password) := by
  refine ⟨?_, ⟨sortE_perm _, sortE_pairwise _⟩, ?_, ?_, ?_⟩
  · have hsort : sortE l1 = sortE l2 := by
      refine sorted_perm_nodup_eq (sortE l1) (sortE l2) ?_ (sortE_pairwise l1)
        (sortE_pairwise l2) ?_
      · exact (sortE_perm l1).trans (hperm.trans (sortE_perm l2).symm)
      · exact (((sortE_perm l1).map EmailEntry.email).nodup_iff).mpr hn
    simp only [build_template_context]
    rw [hsort]
  · intro h
    simp [build_template_context, h, sortE]
  · intro e h
    simp [build_template_context, h, sortE, insertE]
  · intro e1 e2 es h
    simp [build_template_context, h]

/-- C9 witness: the amended claim applied to two concrete permuted lists
with distinct email addresses — both orders give the same context, with
`a@x` primary and `b@x` secondary. -/
theorem C9_amended_witness :
    (build_template_context "test.local (1)"
        { initVaultData with emails := [⟨"b@x", "p2"⟩, ⟨"a@x", "p1"⟩] } =
      build_template_context "test.local (1)"
        { initVaultData with emails := [⟨"a@x", "p1"⟩, ⟨"b@x", "p2"⟩] }) ∧
    (build_template_context "test.local (1)"
        { initVaultData with emails := [⟨"b@x", "p2"⟩, ⟨"a@x", "p1"⟩] }).primary_email =
      "a@x" := by
  constructor
  · exact (C9_amended "test.local (1)" initVaultData [⟨"b@x", "p2"⟩, ⟨"a@x", "p1"⟩]
      [⟨"a@x", "p1"⟩, ⟨"b@x", "p2"⟩] (List.Perm.swap _ _ _) (by decide)).1
  · decide

/-! ## Closed forms of the provisioning loops under fully successful calls -/

theorem createSubfolders_ok (o : Oracle) (root : String) (hf : ∀ k, o.folderOk k = true) :
    ∀ (subs : List String) (k : Nat) (acc : List (String × String)),
      createSubfolders o root k acc subs = (.ok (subMapOf o k acc subs), subEvs o root k subs) := by
  intro subs
  induction subs with
  | nil => intro k acc; rfl
  | cons s rest ih =>
    intro k acc
    simp only [createSubfolders, hf k, if_true, ih, subMapOf, subEvs]

theorem addRecords_ok (o : Oracle) (root : String) (subMap : List (String × String))
    (hr : ∀ j, o.recordOk j = true) :
    ∀ (records : List RecordSpec) (j : Nat),
      addRecords o root subMap j records = (.ok (createdOf records), recEvs root subMap records) := by
  intro records
  induction records with
  | nil => intro j; rfl
  | cons r rest ih =>
    intro j
    simp only [addRecords, hr j, if_true, ih, createdOf, recEvs, List.map_cons]

theorem provisionPhase_ok (o : Oracle) (cust : List (String × String)) (tpl : JsonTemplate)
    (target v : String) (hv : dget "name" cust = some v)
    (hf : ∀ k, o.folderOk k = true) (hr : ∀ j, o.recordOk j = true) :
    provisionPhase o cust tpl target =
      (.ok ⟨o.folderUid 0, subMapOf o 1 [] (substTemplate v tpl).subfolders,
            createdOf (substTemplate v tpl).records,
            aggregateContext v
              (get_folder_records_model (createdOf (substTemplate v tpl).records))⟩,
       Ev.createFolder (substTemplate v tpl).root_folder target (o.folderUid 0) ::
         (subEvs o (o.folderUid 0) 1 (substTemplate v tpl).subfolders ++
          recEvs (o.folderUid 0) (subMapOf o 1 [] (substTemplate v tpl).subfolders)
            (substTemplate v tpl).records)) := by
  simp only [provisionPhase, substitute_placeholders, hv, hf 0, if_true,
    createSubfolders_ok o _ hf, addRecords_ok o _ _ hr, List.cons_append]

theorem renderConvertPhase_ok (o : Oracle) (w : String) (hw : o.wordUidGlobal = some w)
    (hd : o.wordDownloadOk = true) (hrend : o.renderOk = true) (hc : o.convertOk = true) :
    renderConvertPhase o =
      (.ok (), [.tmpFile o.tmpDocx, .tmpFile o.tmpPdf,
                .removeFile o.tmpDocx, .removeFile o.tmpPdf]) := by
  simp [renderConvertPhase, hw, hd, hrend, hc]

theorem renderConvertPhase_convert_fail (o : Oracle) (w : String)
    (hw : o.wordUidGlobal = some w) (hd : o.wordDownloadOk = true)
    (hrend : o.renderOk = true) (hc : o.convertOk = false) :
    renderConvertPhase o = (.error .comError, [.tmpFile o.tmpDocx, .tmpFile o.tmpPdf]) := by
  simp [renderConvertPhase, hw, hd, hrend, hc]

theorem rollback_ok (o : Oracle) (hd : ∀ u, o.deleteOk u = true) :
    ∀ uids : List String, rollback o uids = (.ok (), uids.map delEv) := by
  intro uids
  induction uids with
  | nil => rfl
  | cons u rest ih => simp only [rollback, hd u, if_true, ih, List.map_cons]

theorem publishPhase_fail (o : Oracle) (name root : String) (subMap : List (String × String))
    (hpdf : o.pdfAddOk = true) (hup : o.uploadOk = true)
    (hdel : ∀ u, o.deleteOk u = true)
    (hfail : o.permissionOk = false ∨ (o.permissionOk = true ∧ o.shareOk = false)) :
    ∃ pre : List Ev,
      publishPhase o name root subMap =
        (.error .apiError,
         pre ++ Ev.logError :: (root :: dvalues subMap ++ [o.pdfUid]).map delEv) ∧
      (∀ e ∈ pre, (∃ t u, e = Ev.addRecord t u) ∨ ∃ u, e = Ev.setPermission u) := by
  rcases hfail with hperm | ⟨hperm, hshare⟩
  · refine ⟨[Ev.addRecord (name ++ "_Credentials.pdf") root], ?_, ?_⟩
    · simp [publishPhase, hpdf, hup, hperm, publishFailure, rollback_ok o hdel]
    · intro e he
      simp only [List.mem_singleton] at he
      exact Or.inl ⟨_, _, he⟩
  · refine ⟨[Ev.addRecord (name ++ "_Credentials.pdf") root, Ev.setPermission root], ?_, ?_⟩
    · simp [publishPhase, hpdf, hup, hperm, hshare, publishFailure, rollback_ok o hdel]
    · intro e he
      rcases List.mem_cons.mp he with rfl | he2
      · exact Or.inl ⟨_, _, rfl⟩
      · simp only [List.mem_singleton] at he2
        exact Or.inr ⟨_, he2⟩

theorem subEvs_shape (o : Oracle) (root : String) :
    ∀ (subs : List String) (k : Nat), ∀ e ∈ subEvs o root k subs,
      ∃ n u, e = Ev.createFolder n root u := by
  intro subs
  induction subs with
  | nil => intro k e he; cases he
  | cons s rest ih =>
    intro k e he
    rcases List.mem_cons.mp he with rfl | he2
    · exact ⟨s, o.folderUid k, rfl⟩
    · exact ih (k + 1) e he2

theorem recEvs_shape (root : String) (subMap : List (String × String))
    (records : List RecordSpec) : ∀ e ∈ recEvs root subMap records, ∃ t u, e = Ev.addRecord t u := by
  intro e he
  obtain ⟨r, _, rfl⟩ := List.mem_map.mp he
  exact ⟨_, _, rfl⟩

theorem subMapOf_not_mem (o : Oracle) :
    ∀ (subs : List String) (k : Nat) (acc : List (String × String)) (s : String),
      s ∉ subs → dget s (subMapOf o k acc subs) = dget s acc := by
  intro subs
  induction subs with
  | nil => intro k acc s _; rfl
  | cons x rest ih =>
    intro k acc s hs
    simp only [List.mem_cons] at hs
    push_neg at hs
    simp only [subMapOf]
    rw [ih (k + 1) _ s hs.2, dget_dinsert_ne hs.1]

theorem subMapOf_mem (o : Oracle) (root : String) :
    ∀ (subs : List String) (k : Nat) (acc : List (String × String)) (s : String),
      s ∈ subs →
      ∃ u, dget s (subMapOf o k acc subs) = some u ∧
        Ev.createFolder s root u ∈ subEvs o root k subs := by
  intro subs
  induction subs with
  | nil => intro k acc s hs; cases hs
  | cons x rest ih =>
    intro k acc s hs
    by_cases hrest : s ∈ rest
    · obtain ⟨u, hu, he⟩ := ih (k + 1) (dinsert x (o.folderUid k) acc) s hrest
      exact ⟨u, by simpa [subMapOf] using hu, List.mem_cons_of_mem _ he⟩
    · have hsx : s = x := by
        rcases List.mem_cons.mp hs with h | h
        · exact h
        · exact absurd h hrest
      subst hsx
      refine ⟨o.folderUid k, ?_, List.mem_cons_self _ _⟩
      simp only [subMapOf]
      rw [subMapOf_not_mem o rest (k + 1) _ s hrest, dget_dinsert_self]

/-! # Claim C7 -/

/-- C7: under a customer mapping with a `name` key and fully successful
folder/record creation calls, provisioning first creates the root folder
under the target, then every listed subfolder as a child of the root, then
adds each record of the substituted template — placed into a subfolder
created with the name of the record's `folder` attribute when that name
occurs in the subfolder list, and into the root folder otherwise (the
`dict.get` default). -/
theorem C7_record_placement (o : Oracle) (cust : List (String × String)) (tpl : JsonTemplate)
    (target v : String) (hv : dget "name" cust = some v)
    (hf : ∀ k, o.folderOk k = true) (hr : ∀ j, o.recordOk j = true) :
    ∃ subMap created context evs1 evs2,
      provisionPhase o cust tpl target =
        (.ok ⟨o.folderUid 0, subMap, created, context⟩,
         Ev.createFolder (substTemplate v tpl).root_folder target (o.folderUid 0) ::
           (evs1 ++ evs2)) ∧
      (∀ e ∈ evs1, ∃ n u, e = Ev.createFolder n (o.folderUid 0) u) ∧
      (∀ e ∈ evs2, ∃ t u, e = Ev.addRecord t u) ∧
      (∀ r ∈ (substTemplate v tpl).records,
        Ev.addRecord r.title ((dget r.folder subMap).getD (o.folderUid 0)) ∈ evs2) ∧
      (∀ r ∈ (substTemplate v tpl).records,
        (r.folder ∉ (substTemplate v tpl).subfolders →
          (dget r.folder subMap).getD (o.folderUid 0) = o.folderUid 0) ∧
        (r.folder ∈ (substTemplate v tpl).subfolders →
          ∃ u, dget r.folder subMap = some u ∧
            Ev.createFolder r.folder (o.folderUid 0) u ∈ evs1)) := by
  refine ⟨subMapOf o 1 [] (substTemplate v tpl).subfolders,
    createdOf (substTemplate v tpl).records,
    aggregateContext v (get_folder_records_model (createdOf (substTemplate v tpl).records)),
    subEvs o (o.folderUid 0) 1 (substTemplate v tpl).subfolders,
    recEvs (o.folderUid 0) (subMapOf o 1 [] (substTemplate v tpl).subfolders)
      (substTemplate v tpl).records, ?_, ?_, ?_, ?_, ?_⟩
  · exact provisionPhase_ok o cust tpl target v hv hf hr
  · exact subEvs_shape o (o.folderUid 0) (substTemplate v tpl).subfolders 1
  · exact recEvs_shape (o.folderUid 0) _ (substTemplate v tpl).records
  · intro r hrmem
    exact List.mem_map_of_mem _ hrmem
  · intro r hrmem
    constructor
    · intro hnot
      rw [subMapOf_not_mem o _ 1 [] r.folder hnot]
      rfl
    · intro hmem
      exact subMapOf_mem o (o.folderUid 0) _ 1 [] r.folder hmem

/-- C7 witness: the placement theorem applied to the concrete C5 template,
whose single record names the listed subfolder `Docs`. -/
theorem C7_record_placement_witness :
    ∃ subMap created context evs1 evs2,
      provisionPhase oK [("name", "Acme")] tpl5 "T" =
        (.ok ⟨oK.folderUid 0, subMap, created, context⟩,
         Ev.createFolder (substTemplate "Acme" tpl5).root_folder "T" (oK.folderUid 0) ::
           (evs1 ++ evs2)) ∧
      (∀ e ∈ evs1, ∃ n u, e = Ev.createFolder n (oK.folderUid 0) u) ∧
      (∀ e ∈ evs2, ∃ t u, e = Ev.addRecord t u) ∧
      (∀ r ∈ (substTemplate "Acme" tpl5).records,
        Ev.addRecord r.title ((dget r.folder subMap).getD (oK.folderUid 0)) ∈ evs2) ∧
      (∀ r ∈ (substTemplate "Acme" tpl5).records,
        (r.folder ∉ (substTemplate "Acme" tpl5).subfolders →
          (dget r.folder subMap).getD (oK.folderUid 0) = oK.folderUid 0) ∧
        (r.folder ∈ (substTemplate "Acme" tpl5).subfolders →
          ∃ u, dget r.folder subMap = some u ∧
            Ev.createFolder r.folder (oK.folderUid 0) u ∈ evs1)) :=
  C7_record_placement oK [("name", "Acme")] tpl5 "T" "Acme" (by decide)
    (fun _ => rfl) (fun _ => rfl)

/-! # Claim C5 -/

/-- C5: at the exact scenario input, provisioning does create one root
folder, one subfolder and one record, and the context contains
`customer_name = Acme`; but the record-creation loop never writes the
template's `fields` into the created record (the source only sets
`record.title`), so the read-back context does not contain
`Login_login = bob` — `dget "Login_login"` on the resulting context is
`none`, contradicting the claimed entry. -/
theorem C5_fields_never_written :
    provisionPhase oK [("name", "Acme")] tpl5 "T" =
      (.ok ⟨"F0", [("Docs", "F1")], [("Login", [])], [("customer_name", "Acme")]⟩,
       [Ev.createFolder "Acme" "T" "F0", Ev.createFolder "Docs" "F0" "F1",
        Ev.addRecord "Login" "F1"]) ∧
    dget "customer_name" [("customer_name", "Acme")] = some "Acme" ∧
    dget "Login_login" [("customer_name", "Acme")] = (Option.none : Option String) := by
  refine ⟨by decide, by decide, by decide⟩

/-! # Claim C1 -/

/-- C1 counterexample, two concrete runs.  First: the subfolder creation
fails after the root folder `F0` was created, the exception propagates and
no deletion of `F0` is ever attempted (the rollback handler only guards the
final permission/share block).  Second: the permission call fails after a
complete pipeline, the rollback starts, the first deletion (of `F0`,
dispatched as a record delete because the uid does not contain `'folder'`)
itself fails — and instead of being logged without escalation, it aborts
the rollback, so the subfolder `F1` and PDF record `P0` are never
attempted. -/
theorem C1_counterexample :
    ((process_customer oA [("name", "N")] tplA "T").1 = .error .apiError ∧
      Ev.createFolder "R" "T" "F0" ∈ (process_customer oA [("name", "N")] tplA "T").2 ∧
      Ev.deleteFolderCall "F0" ∉ (process_customer oA [("name", "N")] tplA "T").2 ∧
      Ev.deleteRecordCall "F0" ∉ (process_customer oA [("name", "N")] tplA "T").2 ∧
      Ev.logError ∉ (process_customer oA [("name", "N")] tplA "T").2) ∧
    ((process_customer oB [("name", "N")] tplA "T").1 = .error .apiError ∧
      Ev.logError ∈ (process_customer oB [("name", "N")] tplA "T").2 ∧
      Ev.deleteRecordCall "F0" ∈ (process_customer oB [("name", "N")] tplA "T").2 ∧
      Ev.deleteRecordCall "F1" ∉ (process_customer oB [("name", "N")] tplA "T").2 ∧
      Ev.deleteFolderCall "F1" ∉ (process_customer oB [("name", "N")] tplA "T").2 ∧
      Ev.deleteRecordCall "P0" ∉ (process_customer oB [("name", "N")] tplA "T").2 ∧
      Ev.deleteFolderCall "P0" ∉ (process_customer oB [("name", "N")] tplA "T").2) := by
  exact ⟨⟨by decide, by decide, by decide, by decide, by decide⟩,
    ⟨by decide, by decide, by decide, by decide, by decide, by decide, by decide⟩⟩

/-- C1 amended: rollback is attempted only when the final permission or
one-time-share call fails, after the PDF record was created and uploaded.
Then, after a log entry, a deletion is attempted for exactly the
identifiers of line 192 — the root folder, the subfolders, and the PDF
record, in that order; the identifiers of the structure records created in
the loop are not among them.  Each deletion is dispatched as a folder
delete when the literal substring `folder` occurs in the identifier and as
a record delete otherwise.  When every deletion call succeeds, the
original exception is re-raised; no deletion attempt occurs anywhere
earlier in the event trace. -/
theorem C1_amended (o : Oracle) (cust : List (String × String)) (tpl : JsonTemplate)
    (target v w : String) (hv : dget "name" cust = some v)
    (hf : ∀ k, o.folderOk k = true) (hr : ∀ j, o.recordOk j = true)
    (hw : o.wordUidGlobal = some w) (hdl : o.wordDownloadOk = true)
    (hrend : o.renderOk = true) (hconv : o.convertOk = true)
    (hpdf : o.pdfAddOk = true) (hup : o.uploadOk = true)
    (hdel : ∀ u, o.deleteOk u = true)
    (hfail : o.permissionOk = false ∨ (o.permissionOk = true ∧ o.shareOk = false)) :
    ∃ pre : List Ev,
      process_customer o cust tpl target =
        (.error .apiError,
         pre ++ Ev.logError ::
           (o.folderUid 0 :: dvalues (subMapOf o 1 [] (substTemplate v tpl).subfolders) ++
             [o.pdfUid]).map delEv) ∧
      (∀ e ∈ pre, (∃ n p u, e = Ev.createFolder n p u) ∨ (∃ t u, e = Ev.addRecord t u) ∨
        (∃ p, e = Ev.tmpFile p) ∨ (∃ p, e = Ev.removeFile p) ∨
        ∃ u, e = Ev.setPermission u) := by
  obtain ⟨pub, hpub, hpubshape⟩ := publishPhase_fail o v (o.folderUid 0)
    (subMapOf o 1 [] (substTemplate v tpl).subfolders) hpdf hup hdel hfail
  refine ⟨(Ev.createFolder (substTemplate v tpl).root_folder target (o.folderUid 0) ::
      (subEvs o (o.folderUid 0) 1 (substTemplate v tpl).subfolders ++
       recEvs (o.folderUid 0) (subMapOf o 1 [] (substTemplate v tpl).subfolders)
         (substTemplate v tpl).records)) ++
    [Ev.tmpFile o.tmpDocx, Ev.tmpFile o.tmpPdf,
     Ev.removeFile o.tmpDocx, Ev.removeFile o.tmpPdf] ++ pub, ?_, ?_⟩
  · unfold process_customer
    rw [provisionPhase_ok o cust tpl target v hv hf hr]
    rw [renderConvertPhase_ok o w hw hdl hrend hconv]
    simp only [hv]
    rw [hpub]
    simp [List.append_assoc]
  · intro e he
    rcases List.mem_append.mp he with he1 | hepub
    · rcases List.mem_append.mp he1 with heprov | hetmp
      · rcases List.mem_cons.mp heprov with rfl | hemid
        · exact Or.inl ⟨_, _, _, rfl⟩
        · rcases List.mem_append.mp hemid with hesub | herec
          · obtain ⟨n, u, rfl⟩ := subEvs_shape o (o.folderUid 0) _ 1 e hesub
            exact Or.inl ⟨_, _, _, rfl⟩
          · obtain ⟨t, u, rfl⟩ := recEvs_shape (o.folderUid 0) _ _ e herec
            exact Or.inr (Or.inl ⟨_, _, rfl⟩)
      · simp only [List.mem_cons, List.mem_singleton] at hetmp
        rcases hetmp with rfl | rfl | rfl | rfl | hfalse
        · exact Or.inr (Or.inr (Or.inl ⟨_, rfl⟩))
        · exact Or.inr (Or.inr (Or.inl ⟨_, rfl⟩))
        · exact Or.inr (Or.inr (Or.inr (Or.inl ⟨_, rfl⟩)))
        · exact Or.inr (Or.inr (Or.inr (Or.inl ⟨_, rfl⟩)))
        · cases hfalse
    · rcases hpubshape e hepub with ⟨t, u, rfl⟩ | ⟨u, rfl⟩
      · exact Or.inr (Or.inl ⟨_, _, rfl⟩)
      · exact Or.inr (Or.inr (Or.inr (Or.inr ⟨_, rfl⟩)))

/-- C1 witness: the amended claim at a concrete run in which the permission
call fails and every deletion succeeds. -/
theorem C1_amended_witness :
    ∃ pre : List Ev,
      process_customer oPF [("name", "N")] tplA "T" =
        (.error .apiError,
         pre ++ Ev.logError ::
           (oPF.folderUid 0 :: dvalues (subMapOf oPF 1 [] (substTemplate "N" tplA).subfolders) ++
             [oPF.pdfUid]).map delEv) ∧
      (∀ e ∈ pre, (∃ n p u, e = Ev.createFolder n p u) ∨ (∃ t u, e = Ev.addRecord t u) ∨
        (∃ p, e = Ev.tmpFile p) ∨ (∃ p, e = Ev.removeFile p) ∨
        ∃ u, e = Ev.setPermission u) :=
  C1_amended oPF [("name", "N")] tplA "T" "N" "W" (by decide) (fun _ => rfl) (fun _ => rfl)
    rfl rfl rfl rfl rfl rfl (fun _ => rfl) (Or.inl rfl)
/-! # Claim C3 -/

theorem publishPhase_ok (o : Oracle) (name root : String) (subMap : List (String × String))
    (hpdf : o.pdfAddOk = true) (hup : o.uploadOk = true)
    (hperm : o.permissionOk = true) (hshare : o.shareOk = true) :
    publishPhase o name root subMap =
      (.ok (), [Ev.addRecord (name ++ "_Credentials.pdf") root, Ev.setPermission root,
                Ev.oneTimeShare o.pdfUid]) := by
  simp [publishPhase, hpdf, hup, hperm, hshare]

theorem renderConvertPhase_render_fail (o : Oracle) (w : String)
    (hw : o.wordUidGlobal = some w) (hd : o.wordDownloadOk = true)
    (hrend : o.renderOk = false) :
    renderConvertPhase o = (.error .renderError, []) := by
  simp [renderConvertPhase, hw, hd, hrend]

/-- C3 counterexample: a run in which the conversion to PDF fails.  The
temporary DOCX and PDF files were created, the exception propagates, and no
`os.remove` happens — the removals of lines 179-180 are straight-line code
after the conversion, not a `finally` handler, so the temp files leak on
this exit path. -/
theorem C3_counterexample :
    (process_customer oC [("name", "N")] tplA "T").1 = .error .comError ∧
    Ev.tmpFile "tmp1.docx" ∈ (process_customer oC [("name", "N")] tplA "T").2 ∧
    Ev.tmpFile "tmp1.pdf" ∈ (process_customer oC [("name", "N")] tplA "T").2 ∧
    Ev.removeFile "tmp1.docx" ∉ (process_customer oC [("name", "N")] tplA "T").2 ∧
    Ev.removeFile "tmp1.pdf" ∉ (process_customer oC [("name", "N")] tplA "T").2 := by
  exact ⟨by decide, by decide, by decide, by decide, by decide⟩

/-- C3 amended: the temporary DOCX and PDF files are deleted only on the
path where conversion (and the read-back of the PDF bytes) succeeds; when
conversion fails the already-created temporary files are not deleted; when
rendering fails no temporary files have been created yet. -/
theorem C3_amended (o : Oracle) (cust : List (String × String)) (tpl : JsonTemplate)
    (target v w : String) (hv : dget "name" cust = some v)
    (hf : ∀ k, o.folderOk k = true) (hr : ∀ j, o.recordOk j = true)
    (hw : o.wordUidGlobal = some w) (hdl : o.wordDownloadOk = true) :
    (o.renderOk = true → o.convertOk = true → o.pdfAddOk = true → o.uploadOk = true →
      o.permissionOk = true → o.shareOk = true →
      ∃ evs, process_customer o cust tpl target = (.ok (), evs) ∧
        Ev.tmpFile o.tmpDocx ∈ evs ∧ Ev.tmpFile o.tmpPdf ∈ evs ∧
        Ev.removeFile o.tmpDocx ∈ evs ∧ Ev.removeFile o.tmpPdf ∈ evs) ∧
    (o.renderOk = true → o.convertOk = false →
      ∃ evs, process_customer o cust tpl target = (.error .comError, evs) ∧
        Ev.tmpFile o.tmpDocx ∈ evs ∧ Ev.tmpFile o.tmpPdf ∈ evs ∧
        ∀ p, Ev.removeFile p ∉ evs) ∧
    (o.renderOk = false →
      ∃ evs, process_customer o cust tpl target = (.error .renderError, evs) ∧
        (∀ p, Ev.tmpFile p ∉ evs) ∧ ∀ p, Ev.removeFile p ∉ evs) := by
  refine ⟨?_, ?_, ?_⟩
  · intro hrend hconv hpdf hup hperm hshare
    refine ⟨(Ev.createFolder (substTemplate v tpl).root_folder target (o.folderUid 0) ::
        (subEvs o (o.folderUid 0) 1 (substTemplate v tpl).subfolders ++
         recEvs (o.folderUid 0) (subMapOf o 1 [] (substTemplate v tpl).subfolders)
           (substTemplate v tpl).records)) ++
      [Ev.tmpFile o.tmpDocx, Ev.tmpFile o.tmpPdf,
       Ev.removeFile o.tmpDocx, Ev.removeFile o.tmpPdf] ++
      [Ev.addRecord (v ++ "_Credentials.pdf") (o.folderUid 0),
       Ev.setPermission (o.folderUid 0), Ev.oneTimeShare o.pdfUid], ?_, ?_, ?_, ?_, ?_⟩
    · unfold process_customer
      rw [provisionPhase_ok o cust tpl target v hv hf hr,
        renderConvertPhase_ok o w hw hdl hrend hconv]
      simp only [hv]
      rw [publishPhase_ok o v (o.folderUid 0) _ hpdf hup hperm hshare]
    all_goals simp
  · intro hrend hconv
    refine ⟨(Ev.createFolder (substTemplate v tpl).root_folder target (o.folderUid 0) ::
        (subEvs o (o.folderUid 0) 1 (substTemplate v tpl).subfolders ++
         recEvs (o.folderUid 0) (subMapOf o 1 [] (substTemplate v tpl).subfolders)
           (substTemplate v tpl).records)) ++
      [Ev.tmpFile o.tmpDocx, Ev.tmpFile o.tmpPdf], ?_, by simp, by simp, ?_⟩
    · unfold process_customer
      rw [provisionPhase_ok o cust tpl target v hv hf hr,
        renderConvertPhase_convert_fail o w hw hdl hrend hconv]
    · intro p hp
      rcases List.mem_append.mp hp with hp1 | hp2
      · rcases List.mem_cons.mp hp1 with hroot | hmid
        · cases hroot
        · rcases List.mem_append.mp hmid with hs | hrec2
          · obtain ⟨n, u, hEq⟩ := subEvs_shape o (o.folderUid 0) _ 1 _ hs
            cases hEq
          · obtain ⟨t, u, hEq⟩ := recEvs_shape (o.folderUid 0) _ _ _ hrec2
            cases hEq
      · simp at hp2
  · intro hrend
    refine ⟨Ev.createFolder (substTemplate v tpl).root_folder target (o.folderUid 0) ::
        (subEvs o (o.folderUid 0) 1 (substTemplate v tpl).subfolders ++
         recEvs (o.folderUid 0) (subMapOf o 1 [] (substTemplate v tpl).subfolders)
           (substTemplate v tpl).records), ?_, ?_, ?_⟩
    · unfold process_customer
      rw [provisionPhase_ok o cust tpl target v hv hf hr,
        renderConvertPhase_render_fail o w hw hdl hrend]
      simp
    · intro p hp
      rcases List.mem_cons.mp hp with hroot | hmid
      · cases hroot
      · rcases List.mem_append.mp hmid with hs | hrec2
        · obtain ⟨n, u, hEq⟩ := subEvs_shape o (o.folderUid 0) _ 1 _ hs
          cases hEq
        · obtain ⟨t, u, hEq⟩ := recEvs_shape (o.folderUid 0) _ _ _ hrec2
          cases hEq
    · intro p hp
      rcases List.mem_cons.mp hp with hroot | hmid
      · cases hroot
      · rcases List.mem_append.mp hmid with hs | hrec2
        · obtain ⟨n, u, hEq⟩ := subEvs_shape o (o.folderUid 0) _ 1 _ hs
          cases hEq
        · obtain ⟨t, u, hEq⟩ := recEvs_shape (o.folderUid 0) _ _ _ hrec2
          cases hEq

/-- C3 witness: the amended claim at two concrete runs — a fully successful
one in which both temp files are created and removed, and a
conversion-failure one in which they are created but never removed. -/
theorem C3_amended_witness :
    (∃ evs, process_customer oK [("name", "N")] tplA "T" = (.ok (), evs) ∧
      Ev.tmpFile oK.tmpDocx ∈ evs ∧ Ev.tmpFile oK.tmpPdf ∈ evs ∧
      Ev.removeFile oK.tmpDocx ∈ evs ∧ Ev.removeFile oK.tmpPdf ∈ evs) ∧
    (∃ evs, process_customer oC [("name", "N")] tplA "T" = (.error .comError, evs) ∧
      Ev.tmpFile oC.tmpDocx ∈ evs ∧ Ev.tmpFile oC.tmpPdf ∈ evs ∧
      ∀ p, Ev.removeFile p ∉ evs) := by
  constructor
  · exact (C3_amended oK [("name", "N")] tplA "T" "N" "W" (by decide) (fun _ => rfl)
      (fun _ => rfl) rfl rfl).1 rfl rfl rfl rfl rfl rfl
  · exact (C3_amended oC [("name", "N")] tplA "T" "N" "W" (by decide) (fun _ => rfl)
      (fun _ => rfl) rfl rfl).2.1 rfl rfl

/-! # Claim C6 -/

theorem processing_mem (o : SysOracle) (c : SysCustomer) :
    SysEv.processing c.name ∈ (process_customer_sys o c).2 := by
  unfold process_customer_sys
  cases dget c.category template_paths with
  | none => simp
  | some p =>
    by_cases hfe : o.fileExists p = true
    · simp only [hfe, if_true]
      cases hrec : o.subfolderRecords c.uid with
      | nil => simp
      | cons a b =>
        by_cases hpdf : o.pdfOk c.name = true
        · simp [hpdf]
        · simp [hpdf]
    · simp [hfe]

/-- C6 counterexample: the batch loop of `keeper_pdf_generator.main`
(lines 252-256) has no exception handler, so one customer's failure aborts
the whole batch.  With three bulk customers and a conversion failure for
the second one, the run raises: the completion log is never reached, the
first customer's PDF record was created, and the third customer is never
processed. -/
theorem C6_counterexample :
    (main_batch_run oBatch tplA "T" custs3).1 = .error .comError ∧
    Ev.logCompleted ∉ (main_batch_run oBatch tplA "T" custs3).2 ∧
    Ev.addRecord "N1_Credentials.pdf" "F0" ∈ (main_batch_run oBatch tplA "T" custs3).2 ∧
    Ev.addRecord "N3_Credentials.pdf" "F0" ∉ (main_batch_run oBatch tplA "T" custs3).2 := by
  exact ⟨by decide, by decide, by decide, by decide⟩

/-- C6 amended: in `keeper_pdf_system.KeeperPDFGenerator.run`, batch mode
(`choice == 'A'`) is failure-tolerant: every customer is attempted (each
contributes its `Processing customer` log entry), the loop always
completes, the success count equals the number of customers whose
processing returned `True`, and a summary is printed; in particular the
concrete 3-customer batch in which the second customer's category template
file is missing yields exactly 2 successes, 1 logged template failure, and
the summary `2/3`.  In `keeper_pdf_generator.main`, by contrast, a customer
failure aborts the batch (see the counterexample). -/
theorem C6_amended (o : SysOracle) (cs : List SysCustomer) :
    ((runAll o cs).1 = cs.countP (fun c => (process_customer_sys o c).1) ∧
      ∀ c ∈ cs, SysEv.processing c.name ∈ (runAll o cs).2) ∧
    (runAllSummary sysOracle3 sysCust3).1 = 2 ∧
    (runAllSummary sysOracle3 sysCust3).2.count SysEv.errTemplate = 1 ∧
    SysEv.summary 2 3 ∈ (runAllSummary sysOracle3 sysCust3).2 := by
  refine ⟨⟨?_, ?_⟩, by decide, by decide, by decide⟩
  · induction cs with
    | nil => rfl
    | cons c rest ih =>
      simp only [runAll, List.countP_cons, ih]
      by_cases hc : (process_customer_sys o c).1 = true
      · simp [hc]
        omega
      · simp only [Bool.not_eq_true] at hc
        simp [hc]
  · intro c hc
    induction cs with
    | nil => cases hc
    | cons d rest ih =>
      rcases List.mem_cons.mp hc with rfl | hc2
      · simp only [runAll, List.mem_append]
        exact Or.inl (processing_mem o c)
      · simp only [runAll, List.mem_append]
        exact Or.inr (ih hc2)

/-- C6 witness: the amended claim applied at the concrete 3-customer batch,
projected to the attempted-despite-failure fact for the failing second
customer. -/
theorem C6_amended_witness :
    SysEv.processing "test-extern2.local (200000)" ∈ (runAll sysOracle3 sysCust3).2 :=
  (C6_amended sysOracle3 sysCust3).1.2 ⟨"test-extern2.local (200000)", "U2", "extern"⟩
    (by decide)
